import Mathlib

/-!
Verification development for the FTIR spectral-processing pipeline
(`process_ftir_file`, `find_peaks_in_spectrum`, `parse_llm_analysis` in
`ftir.py` / `main.py`).

The peak detector is `scipy.signal.find_peaks(-absorbance, prominence=0.01,
width=2, distance=20)` followed by `np.argsort(prominences)[::-1][:10]`.
We embed scipy's internal routines (`_local_maxima_1d`,
`_select_by_peak_distance`, `_peak_prominences`, `_peak_widths`,
`_select_by_property`) faithfully, generically over a linear ordered field so
the same definitions run executably over `ℚ` and instantiate over `ℝ` (where
the absorbance values `log10 (100 / t)` live).  `np.argsort` is modelled as a
stable ascending sort.  Numpy's default introsort is an insertion sort — and
hence stable — exactly for arrays of at most 16 elements; for longer arrays it
is unstable and the model's tie order is not the program's.  Consequences that
depend on the tie order are therefore stated only under the hypothesis that at
most 16 peaks survive the filters (the array being argsorted), while the
order-generic consequences (membership, separation, descending prominence,
length bound) hold for every input.
-/

namespace FTIR

variable {α : Type} [LinearOrderedField α]

/-- Signal access `x[i]`; every access performed by the algorithm is in
bounds, the default `0` is never observable. -/
def xD (x : List α) (i : ℕ) : α := x.getD i 0

/-- Inner `while i_ahead < i_max and x[i_ahead] == x[i]` loop of scipy's
`_local_maxima_1d`, scanning past a plateau of samples equal to `v`.  The
first `ℕ` argument is the exact remaining iteration count `i_max - i_ahead`,
so `0` is precisely the exit condition `i_ahead < i_max` failing; counting it
down structurally keeps the function kernel-reducible. -/
def scanPlateau (x : List α) (v : α) : ℕ → ℕ → ℕ
  | 0, ia => ia
  | fuel + 1, ia => if xD x ia = v then scanPlateau x v fuel (ia + 1) else ia

theorem scanPlateau_ge (x : List α) (v : α) :
    ∀ (fuel ia : ℕ), ia ≤ scanPlateau x v fuel ia := by
  intro fuel
  induction fuel with
  | zero => intro ia; exact le_refl ia
  | succ f ih =>
    intro ia
    rw [scanPlateau]
    split
    · exact le_trans (Nat.le_succ ia) (ih (ia + 1))
    · exact le_refl ia

theorem scanPlateau_le (x : List α) (v : α) :
    ∀ (fuel ia : ℕ), scanPlateau x v fuel ia ≤ ia + fuel := by
  intro fuel
  induction fuel with
  | zero => intro ia; exact Nat.le_refl ia
  | succ f ih =>
    intro ia
    rw [scanPlateau]
    split
    · exact le_trans (ih (ia + 1)) (by omega)
    · omega

/-- Main loop of scipy's `_local_maxima_1d`: emits the midpoint
`(left_edge + right_edge) // 2` of every (possibly flat) interior local
maximum, then resumes after the plateau.  `fuel` bounds the number of
remaining iterations; since `i` advances by at least one per iteration, any
`fuel ≥ i_max - i` is exact (`localMaximaAux_fuel` below), and the loop
guard `i < i_max` stays authoritative. -/
def localMaximaAux (x : List α) (iMax : ℕ) : ℕ → ℕ → List ℕ
  | 0, _ => []
  | fuel + 1, i =>
    if i < iMax then
      if xD x (i - 1) < xD x i then
        if xD x (scanPlateau x (xD x i) (iMax - (i + 1)) (i + 1)) < xD x i then
          (i + (scanPlateau x (xD x i) (iMax - (i + 1)) (i + 1) - 1)) / 2
            :: localMaximaAux x iMax fuel
                (scanPlateau x (xD x i) (iMax - (i + 1)) (i + 1) + 1)
        else
          localMaximaAux x iMax fuel (i + 1)
      else
        localMaximaAux x iMax fuel (i + 1)
    else []

theorem localMaximaAux_fuel (x : List α) (iMax : ℕ) :
    ∀ (fuel fuel' i : ℕ), iMax ≤ i + fuel → iMax ≤ i + fuel' →
      localMaximaAux x iMax fuel i = localMaximaAux x iMax fuel' i := by
  intro fuel
  induction fuel with
  | zero =>
    intro fuel' i h h'
    cases fuel' with
    | zero => rfl
    | succ f' =>
      rw [localMaximaAux, localMaximaAux, if_neg (by omega)]
  | succ f ih =>
    intro fuel' i h h'
    cases fuel' with
    | zero =>
      rw [localMaximaAux, localMaximaAux, if_neg (by omega)]
    | succ f' =>
      rw [localMaximaAux, localMaximaAux]
      by_cases h1 : i < iMax
      · rw [if_pos h1, if_pos h1]
        have hsg : i + 1 ≤ scanPlateau x (xD x i) (iMax - (i + 1)) (i + 1) :=
          scanPlateau_ge x (xD x i) (iMax - (i + 1)) (i + 1)
        have hsl : scanPlateau x (xD x i) (iMax - (i + 1)) (i + 1) ≤
            (i + 1) + (iMax - (i + 1)) :=
          scanPlateau_le x (xD x i) (iMax - (i + 1)) (i + 1)
        split
        · split
          · rw [ih f' (scanPlateau x (xD x i) (iMax - (i + 1)) (i + 1) + 1)
              (by omega) (by omega)]
          · rw [ih f' (i + 1) (by omega) (by omega)]
        · rw [ih f' (i + 1) (by omega) (by omega)]
      · rw [if_neg h1, if_neg h1]

/-- Local maxima (plateau midpoints) of a signal, as in scipy's
`_local_maxima_1d`; boundary samples are never maxima.  The loop starts at
`i = 1` with `i_max = n - 1`, so `i_max` iterations always suffice. -/
def localMaxima (x : List α) : List ℕ :=
  localMaximaAux x (x.length - 1) (x.length - 1) 1

/-- Stable insertion of index `i` into an index list ordered ascending by
`(priority, index)` lexicographically; this is the order `np.argsort`
(stable kind) produces. -/
def insertIdx (p : List α) (i : ℕ) : List ℕ → List ℕ
  | [] => [i]
  | j :: rest =>
    if xD p i < xD p j ∨ (xD p i = xD p j ∧ i ≤ j) then i :: j :: rest
    else j :: insertIdx p i rest

/-- Model of `np.argsort(p)`: the indices `0, …, len p - 1` sorted ascending
by priority, ties in original index order.  `np.argsort`'s default introsort
is this stable order exactly when `p` has at most 16 elements (the insertion
sort fallback); for longer `p` it is unstable and agrees with this model only
up to the order among equal-priority indices, so tie-order consequences are
claimed only for at most 16 sorted elements. -/
def argsort (p : List α) : List ℕ := (List.range p.length).foldr (insertIdx p) []

/-- Left sweep `while 0 <= k and peaks[j] - peaks[k] < distance_` of scipy's
`_select_by_peak_distance`; the `ℕ` argument is `k + 1` (so `0` means the
sweep has run off the left edge). -/
def killLeft (peaks : List ℕ) (pj dist : ℤ) : ℕ → List Bool → List Bool
  | 0, keep => keep
  | k + 1, keep =>
    if pj - (peaks.getD k 0 : ℤ) < dist then
      killLeft peaks pj dist k (keep.set k false)
    else keep

/-- Right sweep `while k < peaks_size and peaks[k] - peaks[j] < distance_` of
scipy's `_select_by_peak_distance`.  The first `ℕ` argument is the exact
remaining iteration count `peaks_size - k`, so `0` is precisely the exit
condition `k < peaks_size` failing. -/
def killRight (peaks : List ℕ) (pj dist : ℤ) : ℕ → ℕ → List Bool → List Bool
  | 0, _, keep => keep
  | fuel + 1, k, keep =>
    if (peaks.getD k 0 : ℤ) - pj < dist then
      killRight peaks pj dist fuel (k + 1) (keep.set k false)
    else keep

/-- Body of the highest-priority-first loop of `_select_by_peak_distance`:
an already-discarded candidate is skipped, a retained one discards every
candidate closer than `dist` on either side. -/
def sbpdStep (peaks : List ℕ) (dist : ℤ) (keep : List Bool) (j : ℕ) : List Bool :=
  if keep.getD j true = false then keep
  else
    killRight peaks (peaks.getD j 0 : ℤ) dist (peaks.length - (j + 1)) (j + 1)
      (killLeft peaks (peaks.getD j 0 : ℤ) dist j keep)

/-- Model of scipy's `_select_by_peak_distance(peaks, priority, distance)`:
candidates are visited in decreasing priority order (priority is the signal
value at the peak) and each retained candidate discards all others within
`dist` samples. -/
def selectByPeakDistance (peaks : List ℕ) (priority : List α) (dist : ℤ) :
    List Bool :=
  ((argsort priority).reverse).foldl (sbpdStep peaks dist)
    (List.replicate peaks.length true)

/-- Left half of scipy's `_peak_prominences` loop: walk left from the peak
while `x[i] <= x[peak]`, tracking the running minimum and its (last updated)
position; returns `(left_min, left_base)`. -/
def promLeft (x : List α) (xp : α) : ℕ → α → ℕ → α × ℕ
  | i, m, b =>
    if xD x i ≤ xp then
      match i with
      | 0 => if xD x 0 < m then (xD x 0, 0) else (m, b)
      | i' + 1 =>
        if xD x (i' + 1) < m then promLeft x xp i' (xD x (i' + 1)) (i' + 1)
        else promLeft x xp i' m b
    else (m, b)

/-- Right half of scipy's `_peak_prominences` loop: walk right from the peak
while `i <= i_max` (`i_max = n - 1`, i.e. `i < n`) and `x[i] <= x[peak]`.
The first `ℕ` argument is the exact remaining iteration count `n - i`, so
`0` is precisely the bound check failing. -/
def promRight (x : List α) (xp : α) : ℕ → ℕ → α → ℕ → α × ℕ
  | 0, _, m, b => (m, b)
  | fuel + 1, i, m, b =>
    if xD x i ≤ xp then
      if xD x i < m then promRight x xp fuel (i + 1) (xD x i) i
      else promRight x xp fuel (i + 1) m b
    else (m, b)

/-- Prominence, left base and right base of one peak, as computed by scipy's
`_peak_prominences` with no `wlen` restriction:
`prominence = x[peak] - max(left_min, right_min)`. -/
def promTriple (x : List α) (peak : ℕ) : α × ℕ × ℕ :=
  let xp := xD x peak
  let lm := promLeft x xp peak xp peak
  let rm := promRight x xp (x.length - peak) peak xp peak
  (xp - max lm.1 rm.1, lm.2, rm.2)

/-- Prominence data for a list of peaks (`_peak_prominences`). -/
def peakProminences (x : List α) (peaks : List ℕ) : List (α × ℕ × ℕ) :=
  peaks.map (promTriple x)

/-- Left `while i_min < i and height < x[i]` loop of scipy's `_peak_widths`. -/
def widthLeftI (x : List α) (height : α) (iMin : ℕ) : ℕ → ℕ
  | 0 => 0
  | i + 1 =>
    if iMin < i + 1 ∧ height < xD x (i + 1) then widthLeftI x height iMin i
    else i + 1

/-- Right `while i < i_max and height < x[i]` loop of scipy's `_peak_widths`.
The first `ℕ` argument is the exact remaining iteration count `i_max - i`,
so `0` is precisely the bound check `i < i_max` failing. -/
def widthRightI (x : List α) (height : α) : ℕ → ℕ → ℕ
  | 0, i => i
  | fuel + 1, i => if height < xD x i then widthRightI x height fuel (i + 1) else i

/-- Interpolated left intersection point `left_ip` of `_peak_widths`. -/
def interpLeft (x : List α) (height : α) (li : ℕ) : α :=
  if xD x li < height then (li : α) + (height - xD x li) / (xD x (li + 1) - xD x li)
  else (li : α)

/-- Interpolated right intersection point `right_ip` of `_peak_widths`. -/
def interpRight (x : List α) (height : α) (ri : ℕ) : α :=
  if xD x ri < height then (ri : α) - (height - xD x ri) / (xD x (ri - 1) - xD x ri)
  else (ri : α)

/-- Width of one peak at half prominence, as computed by scipy's
`_peak_widths` with `rel_height = 0.5`: evaluation height
`x[peak] - prominence * 0.5`, intersection points linearly interpolated, width
is `right_ip - left_ip`. -/
def widthOf (x : List α) (peak : ℕ) (prom : α) (lb rb : ℕ) : α :=
  interpRight x (xD x peak - prom / 2)
      (widthRightI x (xD x peak - prom / 2) (rb - peak) peak)
    - interpLeft x (xD x peak - prom / 2) (widthLeftI x (xD x peak - prom / 2) lb peak)

/-- Candidate peaks surviving the distance filter: `peaks[keep]` in
`find_peaks` after `_select_by_peak_distance`. -/
def distanceFiltered (x : List α) : List ℕ :=
  ((localMaxima x).zip (selectByPeakDistance (localMaxima x)
    ((localMaxima x).map (xD x)) 20)).filterMap
    fun q => if q.2 then some q.1 else none

/-- Model of `scipy.signal.find_peaks(x, prominence=0.01, width=2,
distance=20)`: local maxima, then the distance filter (priority = signal
height), then the prominence filter `0.01 <= prominence`, then the width
filter `2 <= width`; conditions are evaluated in scipy's documented order.
Returns the surviving peak indices paired with their prominences
(`properties['prominences']`); pairing each surviving peak with its
`_peak_prominences` triple replaces scipy's parallel index arrays. -/
def findPeaks (x : List α) : List (ℕ × α) :=
  ((((distanceFiltered x).map fun p => (p, promTriple x p)).filter fun q =>
      (1 / 100 : α) ≤ q.2.1).filter fun q =>
      (2 : α) ≤ widthOf x q.1 q.2.1 q.2.2.1 q.2.2.2).map fun q => (q.1, q.2.1)

/-- Ranking step of `find_peaks_in_spectrum`:
`sorted_indices = np.argsort(properties['prominences'])[::-1]` followed by
`[:10]`, applied to the `(index, prominence)` pairs returned by `findPeaks`. -/
def rankPeaks (pk : List (ℕ × α)) : List (ℕ × α) :=
  ((argsort (pk.map Prod.snd)).reverse.take 10).map fun k => pk.getD k (0, 0)

/-- Processed spectrum row: `cm-1`, `transmittance` and the derived
`absorbance` column of the dataframe built by `process_ftir_file`. -/
structure Row where
  cm1 : ℝ
  transmittance : ℝ
  absorbance : ℝ

instance : Inhabited Row := ⟨⟨0, 0, 0⟩⟩

/-- Row of the peak table returned by `find_peaks_in_spectrum`
(`Wavenumber`, `Prominence`, `Transmittance`). -/
structure PeakRec where
  wavenumber : ℝ
  prominence : ℝ
  transmittance : ℝ

/-- Python exception escaping `process_ftir_file`; the function wraps every
failure in `ValueError`. -/
inductive PyErr where
  | valueError (msg : String)

/-- Message of the column-count validation raise in `process_ftir_file`. -/
def colMsg : String := "CSV must have exactly 2 columns: wavenumber and transmittance"

/-- Message prefix added by the `except` clause of `process_ftir_file`. -/
def errPrefix : String := "Error processing file: "

/-- Column count of a parsed table, `len(df.columns)`: the width of the
(rectangular) numeric table read by `pd.read_csv`. -/
def ncols (table : List (List ℝ)) : ℕ := (table.headD []).length

/-- One processed row: wavenumber, transmittance, and
`absorbance = np.log10(100 / transmittance)` (the finite, real-valued case;
see `npAbsorbance` for the IEEE behaviour at non-positive transmittance). -/
noncomputable def mkRow (r : List ℝ) : Row :=
  ⟨r.getD 0 0, r.getD 1 0, Real.logb 10 (100 / r.getD 1 0)⟩

/-- Model of `FTIRAnalyzer.process_ftir_file`: the input is the rectangular
numeric table parsed from the CSV; a column count other than 2 raises
`ValueError("CSV must have exactly 2 columns: ...")`, which the surrounding
`except` re-raises as `ValueError("Error processing file: " + str(e))`;
otherwise every row gets the derived absorbance column. -/
noncomputable def process_ftir_file (table : List (List ℝ)) :
    Except PyErr (List Row) :=
  if ncols table = 2 then .ok (table.map mkRow)
  else .error (.valueError (errPrefix ++ colMsg))

/-- Signal handed to `find_peaks`: `-df['absorbance']`. -/
noncomputable def spectrumSignal (df : List Row) : List ℝ :=
  df.map fun r => -r.absorbance

/-- Accepted peaks of a spectrum with their prominences, in final table
order: `find_peaks` output ranked by descending prominence, top 10. The
first component is the peak's source index in the spectrum. -/
noncomputable def selectedPeaks (df : List Row) : List (ℕ × ℝ) :=
  rankPeaks (findPeaks (spectrumSignal df))

/-- Model of `FTIRAnalyzer.find_peaks_in_spectrum`: the returned table pairs
each accepted peak's original wavenumber and transmittance (via `.iloc`)
with its computed prominence. -/
noncomputable def find_peaks_in_spectrum (df : List Row) : List PeakRec :=
  (selectedPeaks df).map fun q =>
    ⟨(df.getD q.1 default).cm1, q.2, (df.getD q.1 default).transmittance⟩

/-- Value of one numpy float64 cell, separating the non-finite cases. -/
inductive FloatVal where
  | fin (v : ℝ)
  | posInf
  | negInf
  | nan

/-- Models the numpy evaluation of `100 / t` for a finite float `t`: division
of the positive literal `100` by (positive) zero yields `+inf`; otherwise the
quotient is finite. -/
noncomputable def npDiv100 (t : ℝ) : FloatVal :=
  if t = 0 then .posInf else .fin (100 / t)

/-- Models `np.log10` on a float64: finite positive arguments give the
finite logarithm, `log10(+0) = -inf`, `log10` of a negative value is `nan`,
`log10(+inf) = +inf`. -/
noncomputable def npLog10 : FloatVal → FloatVal
  | .fin v =>
    if 0 < v then .fin (Real.logb 10 v) else if v = 0 then .negInf else .nan
  | .posInf => .posInf
  | .negInf => .nan
  | .nan => .nan

/-- IEEE-faithful value of the absorbance cell
`np.log10(100 / df['transmittance'])` at one row, including non-positive
transmittance. -/
noncomputable def npAbsorbance (t : ℝ) : FloatVal := npLog10 (npDiv100 t)

/-- Spectrum row with the absorbance cell kept as a float value, so that the
non-finite cases of the derivation are visible. -/
structure FloatRow where
  cm1 : ℝ
  transmittance : ℝ
  absorbance : FloatVal

/-- Row-wise absorbance derivation of `process_ftir_file` under IEEE float
semantics: numpy evaluates the whole column elementwise, raising nothing, so
every row is produced regardless of non-positive transmittance values. -/
noncomputable def processRowsFloat (table : List (List ℝ)) : List FloatRow :=
  table.map fun r => ⟨r.getD 0 0, r.getD 1 0, npAbsorbance (r.getD 1 0)⟩

/-- JSON value as produced by `json.loads`. -/
inductive JsonVal where
  | obj (fields : List (String × JsonVal))
  | arr (elems : List JsonVal)
  | str (s : String)
  | num (q : ℚ)
  | bool (b : Bool)
  | null

/-- Model of `parse_llm_analysis`: `json.loads` (modelled as the given
partial decoding function `loads`) is attempted on the service's response
text; on success its value is returned unchanged, on any decode failure the
fallback dictionary with the literal response body under `raw_text` (the
spec's `Unparsed` variant) is returned — no exception propagates. -/
def parse_llm_analysis (loads : String → Option JsonVal) (analysisText : String) :
    JsonVal :=
  match loads analysisText with
  | some v => v
  | none =>
    .obj [("error", .str "Could not parse LLM response"),
          ("raw_text", .str analysisText)]

/-- JSON insignificant whitespace (`json.loads` tokenizer). -/
def skipWs : List Char → List Char
  | [] => []
  | c :: rest =>
    if c = ' ' ∨ c = '\n' ∨ c = '\t' ∨ c = '\r' then skipWs rest else c :: rest

/-- Digit run of a JSON integer literal, accumulating its value. -/
def parseDigits : ℕ → List Char → ℕ × List Char
  | acc, [] => (acc, [])
  | acc, c :: rest =>
    if c.isDigit then parseDigits (acc * 10 + (c.toNat - 48)) rest
    else (acc, c :: rest)

/-- Characters of a JSON string literal up to the closing quote.  Escape
sequences are outside the modelled subset (rejected), so within the subset
the content is taken verbatim, as `json.loads` does. -/
def parseStrChars : List Char → Option (List Char × List Char)
  | [] => none
  | c :: rest =>
    if c = '"' then some ([], rest)
    else if c = '\\' then none
    else
      match parseStrChars rest with
      | some (cs, rem) => some (c :: cs, rem)
      | none => none

/-- Exact keyword suffix match (for `true`, `false`, `null`). -/
def expectChars : List Char → List Char → Option (List Char)
  | [], input => some input
  | _ :: _, [] => none
  | c :: cs, d :: rest => if c = d then expectChars cs rest else none

/-- Tail of a JSON array after `[`: one value per step, continued by `,` and
closed by `]`.  `pv` parses one value; the fuel bounds the element count. -/
def parseElems (pv : List Char → Option (JsonVal × List Char)) :
    ℕ → List Char → Option (List JsonVal × List Char)
  | 0, _ => none
  | fuel + 1, input =>
    match pv input with
    | none => none
    | some (v, rest) =>
      match skipWs rest with
      | [] => none
      | c :: rest2 =>
        if c = ',' then
          match parseElems pv fuel rest2 with
          | some (vs, rem) => some (v :: vs, rem)
          | none => none
        else if c = ']' then some ([v], rest2)
        else none

/-- Tail of a JSON object after the opening brace: `"key" : value` members
continued by `,` and closed by the closing brace. -/
def parseFields (pv : List Char → Option (JsonVal × List Char)) :
    ℕ → List Char → Option (List (String × JsonVal) × List Char)
  | 0, _ => none
  | fuel + 1, input =>
    match skipWs input with
    | [] => none
    | c :: rest =>
      if c = '"' then
        match parseStrChars rest with
        | none => none
        | some (key, rest2) =>
          match skipWs rest2 with
          | [] => none
          | c2 :: rest3 =>
            if c2 = ':' then
              match pv rest3 with
              | none => none
              | some (v, rest4) =>
                match skipWs rest4 with
                | [] => none
                | c3 :: rest5 =>
                  if c3 = ',' then
                    match parseFields pv fuel rest5 with
                    | some (fs, rem) => some ((String.mk key, v) :: fs, rem)
                    | none => none
                  else if c3 = '\x7d' then some ([(String.mk key, v)], rest5)
                  else none
            else none
      else none

/-- Recursive-descent parser for one JSON value, the decoder behind
`json.loads`: objects, arrays, strings, integers, `true`/`false`/`null`.
Modelled subset: no escape sequences in strings and integer numerals only
(no fractions or exponents); within that subset the parser accepts exactly
the documents `json.loads` accepts and produces the same value.  The fuel
only bounds recursion and is chosen large enough at the top level. -/
def parseVal : ℕ → List Char → Option (JsonVal × List Char)
  | 0, _ => none
  | fuel + 1, input =>
    match skipWs input with
    | [] => none
    | c :: rest =>
      if c = '"' then
        match parseStrChars rest with
        | some (cs, rem) => some (.str (String.mk cs), rem)
        | none => none
      else if c = '[' then
        match skipWs rest with
        | [] => none
        | c2 :: rest2 =>
          if c2 = ']' then some (.arr [], rest2)
          else
            match parseElems (parseVal fuel) fuel (c2 :: rest2) with
            | some (vs, rem) => some (.arr vs, rem)
            | none => none
      else if c = '\x7b' then
        match skipWs rest with
        | [] => none
        | c2 :: rest2 =>
          if c2 = '\x7d' then some (.obj [], rest2)
          else
            match parseFields (parseVal fuel) fuel (c2 :: rest2) with
            | some (fs, rem) => some (.obj fs, rem)
            | none => none
      else if c = 't' then
        match expectChars ['r', 'u', 'e'] rest with
        | some rem => some (.bool true, rem)
        | none => none
      else if c = 'f' then
        match expectChars ['a', 'l', 's', 'e'] rest with
        | some rem => some (.bool false, rem)
        | none => none
      else if c = 'n' then
        match expectChars ['u', 'l', 'l'] rest with
        | some rem => some (.null, rem)
        | none => none
      else if c = '-' then
        match rest with
        | [] => none
        | d :: _ =>
          if d.isDigit then
            some (.num (-((parseDigits 0 rest).1 : ℚ)), (parseDigits 0 rest).2)
          else none
      else if c.isDigit then
        some (.num ((parseDigits 0 (c :: rest)).1 : ℚ), (parseDigits 0 (c :: rest)).2)
      else none

/-- Model of the library call `json.loads(s)` on the subset above: parse one
value, then require that only whitespace remains (`json.loads` raises
`Extra data` otherwise); `none` is the model of the raised `JSONDecodeError`
that `parse_llm_analysis` catches. -/
def jsonLoads (s : String) : Option JsonVal :=
  match parseVal (s.length + 1) s.data with
  | some (v, rest) => if skipWs rest = [] then some v else none
  | none => none

/-- A syntactically valid JSON payload whose shape is not the expected
analysis schema (a single-member object mapping key `answer` to `42`). -/
def wrongShapePayload : String := "\x7b\"answer\": 42\x7d"

/-- A free-form prose response, not syntactically valid JSON. -/
def prosePayload : String := "The spectrum shows stretches typical of polyethylene."

/-- A further valid JSON payload of unexpected shape (an array). -/
def arrayPayload : String := "[1, 2]"

/-!
Transport lemmas: the generic pipeline commutes with the order embedding
`ℚ → ℝ`, so a spectrum whose signal happens to be rational (transmittance a
power of ten, hence integer absorbance) can be evaluated exactly.
-/

theorem xD_cast (l : List ℚ) (i : ℕ) :
    xD (l.map (Rat.cast : ℚ → ℝ)) i = ((xD l i : ℚ) : ℝ) := by
  unfold xD
  rcases h : l[i]? with _ | a
  · simp [List.getD_eq_getElem?_getD, h]
  · simp [List.getD_eq_getElem?_getD, h]

theorem scanPlateau_cast (l : List ℚ) (v : ℚ) :
    ∀ (fuel ia : ℕ),
      scanPlateau (l.map (Rat.cast : ℚ → ℝ)) ((v : ℚ) : ℝ) fuel ia =
        scanPlateau l v fuel ia := by
  intro fuel
  induction fuel with
  | zero => intro ia; rfl
  | succ f ih =>
    intro ia
    have hiff : (xD (l.map (Rat.cast : ℚ → ℝ)) ia = ((v : ℚ) : ℝ)) ↔
        (xD l ia = v) := by
      rw [xD_cast, Rat.cast_inj]
    by_cases h : xD l ia = v
    · conv_lhs => rw [scanPlateau]
      conv_rhs => rw [scanPlateau]
      rw [if_pos (hiff.mpr h), if_pos h]
      exact ih (ia + 1)
    · conv_lhs => rw [scanPlateau]
      conv_rhs => rw [scanPlateau]
      rw [if_neg (fun hc => h (hiff.mp hc)), if_neg h]

theorem localMaximaAux_cast (l : List ℚ) (iMax : ℕ) :
    ∀ (fuel i : ℕ),
      localMaximaAux (l.map (Rat.cast : ℚ → ℝ)) iMax fuel i =
        localMaximaAux l iMax fuel i := by
  intro fuel
  induction fuel with
  | zero => intro i; rfl
  | succ f ih =>
    intro i
    by_cases h1 : i < iMax
    · have esp : scanPlateau (l.map (Rat.cast : ℚ → ℝ))
          (xD (l.map (Rat.cast : ℚ → ℝ)) i) (iMax - (i + 1)) (i + 1) =
          scanPlateau l (xD l i) (iMax - (i + 1)) (i + 1) := by
        rw [xD_cast]
        exact scanPlateau_cast l (xD l i) (iMax - (i + 1)) (i + 1)
      by_cases h2 : xD l (i - 1) < xD l i
      · have h2' : xD (l.map (Rat.cast : ℚ → ℝ)) (i - 1) <
            xD (l.map (Rat.cast : ℚ → ℝ)) i := by
          rw [xD_cast, xD_cast, Rat.cast_lt]; exact h2
        by_cases h3 : xD l (scanPlateau l (xD l i) (iMax - (i + 1)) (i + 1)) < xD l i
        · have h3' : xD (l.map (Rat.cast : ℚ → ℝ))
              (scanPlateau (l.map (Rat.cast : ℚ → ℝ))
                (xD (l.map (Rat.cast : ℚ → ℝ)) i) (iMax - (i + 1)) (i + 1)) <
              xD (l.map (Rat.cast : ℚ → ℝ)) i := by
            rw [esp, xD_cast, xD_cast, Rat.cast_lt]; exact h3
          conv_lhs => rw [localMaximaAux]
          conv_rhs => rw [localMaximaAux]
          rw [if_pos h1, if_pos h1, if_pos h2', if_pos h2, if_pos h3',
            if_pos h3, esp]
          exact congrArg _
            (ih (scanPlateau l (xD l i) (iMax - (i + 1)) (i + 1) + 1))
        · have h3' : ¬ xD (l.map (Rat.cast : ℚ → ℝ))
              (scanPlateau (l.map (Rat.cast : ℚ → ℝ))
                (xD (l.map (Rat.cast : ℚ → ℝ)) i) (iMax - (i + 1)) (i + 1)) <
              xD (l.map (Rat.cast : ℚ → ℝ)) i := by
            rw [esp, xD_cast, xD_cast, Rat.cast_lt]; exact h3
          conv_lhs => rw [localMaximaAux]
          conv_rhs => rw [localMaximaAux]
          rw [if_pos h1, if_pos h1, if_pos h2', if_pos h2, if_neg h3', if_neg h3]
          exact ih (i + 1)
      · have h2' : ¬ xD (l.map (Rat.cast : ℚ → ℝ)) (i - 1) <
            xD (l.map (Rat.cast : ℚ → ℝ)) i := by
          rw [xD_cast, xD_cast, Rat.cast_lt]; exact h2
        conv_lhs => rw [localMaximaAux]
        conv_rhs => rw [localMaximaAux]
        rw [if_pos h1, if_pos h1, if_neg h2', if_neg h2]
        exact ih (i + 1)
    · conv_lhs => rw [localMaximaAux]
      conv_rhs => rw [localMaximaAux]
      rw [if_neg h1, if_neg h1]

theorem localMaxima_cast (l : List ℚ) :
    localMaxima (l.map (Rat.cast : ℚ → ℝ)) = localMaxima l := by
  unfold localMaxima
  rw [List.length_map]
  exact localMaximaAux_cast l (l.length - 1) (l.length - 1) 1

theorem insertIdx_cast (p : List ℚ) (i : ℕ) (L : List ℕ) :
    insertIdx (p.map (Rat.cast : ℚ → ℝ)) i L = insertIdx p i L := by
  induction L with
  | nil => rfl
  | cons j rest ih =>
    have hiff : (xD (p.map (Rat.cast : ℚ → ℝ)) i < xD (p.map (Rat.cast : ℚ → ℝ)) j ∨
        (xD (p.map (Rat.cast : ℚ → ℝ)) i = xD (p.map (Rat.cast : ℚ → ℝ)) j ∧ i ≤ j)) ↔
        (xD p i < xD p j ∨ (xD p i = xD p j ∧ i ≤ j)) := by
      rw [xD_cast, xD_cast, Rat.cast_lt, Rat.cast_inj]
    by_cases h : xD p i < xD p j ∨ (xD p i = xD p j ∧ i ≤ j)
    · conv_lhs => rw [insertIdx]
      conv_rhs => rw [insertIdx]
      rw [if_pos (hiff.mpr h), if_pos h]
    · conv_lhs => rw [insertIdx]
      conv_rhs => rw [insertIdx]
      rw [if_neg (fun hc => h (hiff.mp hc)), if_neg h, ih]

theorem argsort_cast (p : List ℚ) :
    argsort (p.map (Rat.cast : ℚ → ℝ)) = argsort p := by
  unfold argsort
  rw [List.length_map]
  have h : ∀ L : List ℕ,
      L.foldr (insertIdx (p.map (Rat.cast : ℚ → ℝ))) [] = L.foldr (insertIdx p) [] := by
    intro L
    induction L with
    | nil => rfl
    | cons j rest ih => rw [List.foldr_cons, List.foldr_cons, ih, insertIdx_cast]
  exact h (List.range p.length)

theorem selectByPeakDistance_cast (peaks : List ℕ) (p : List ℚ) (dist : ℤ) :
    selectByPeakDistance peaks (p.map (Rat.cast : ℚ → ℝ)) dist =
      selectByPeakDistance peaks p dist := by
  unfold selectByPeakDistance
  rw [argsort_cast]

theorem promLeft_cast (l : List ℚ) (xp : ℚ) :
    ∀ (i : ℕ) (m : ℚ) (b : ℕ),
      promLeft (l.map (Rat.cast : ℚ → ℝ)) ((xp : ℚ) : ℝ) i ((m : ℚ) : ℝ) b =
        (((promLeft l xp i m b).1 : ℝ), (promLeft l xp i m b).2) := by
  intro i
  induction i with
  | zero =>
    intro m b
    by_cases h : xD l 0 ≤ xp
    · have h' : xD (l.map (Rat.cast : ℚ → ℝ)) 0 ≤ ((xp : ℚ) : ℝ) := by
        rw [xD_cast, Rat.cast_le]; exact h
      by_cases h2 : xD l 0 < m
      · have h2' : xD (l.map (Rat.cast : ℚ → ℝ)) 0 < ((m : ℚ) : ℝ) := by
          rw [xD_cast, Rat.cast_lt]; exact h2
        conv_lhs => rw [promLeft]
        conv_rhs => rw [promLeft]
        rw [if_pos h', if_pos h, if_pos h2', if_pos h2, xD_cast]
      · have h2' : ¬ xD (l.map (Rat.cast : ℚ → ℝ)) 0 < ((m : ℚ) : ℝ) := by
          rw [xD_cast, Rat.cast_lt]; exact h2
        conv_lhs => rw [promLeft]
        conv_rhs => rw [promLeft]
        rw [if_pos h', if_pos h, if_neg h2', if_neg h2]
    · have h' : ¬ xD (l.map (Rat.cast : ℚ → ℝ)) 0 ≤ ((xp : ℚ) : ℝ) := by
        rw [xD_cast, Rat.cast_le]; exact h
      conv_lhs => rw [promLeft]
      conv_rhs => rw [promLeft]
      rw [if_neg h', if_neg h]
  | succ i' ih =>
    intro m b
    by_cases h : xD l (i' + 1) ≤ xp
    · have h' : xD (l.map (Rat.cast : ℚ → ℝ)) (i' + 1) ≤ ((xp : ℚ) : ℝ) := by
        rw [xD_cast, Rat.cast_le]; exact h
      by_cases h2 : xD l (i' + 1) < m
      · have h2' : xD (l.map (Rat.cast : ℚ → ℝ)) (i' + 1) < ((m : ℚ) : ℝ) := by
          rw [xD_cast, Rat.cast_lt]; exact h2
        conv_lhs => rw [promLeft]
        conv_rhs => rw [promLeft]
        rw [if_pos h', if_pos h, if_pos h2', if_pos h2, xD_cast]
        exact ih (xD l (i' + 1)) (i' + 1)
      · have h2' : ¬ xD (l.map (Rat.cast : ℚ → ℝ)) (i' + 1) < ((m : ℚ) : ℝ) := by
          rw [xD_cast, Rat.cast_lt]; exact h2
        conv_lhs => rw [promLeft]
        conv_rhs => rw [promLeft]
        rw [if_pos h', if_pos h, if_neg h2', if_neg h2]
        exact ih m b
    · have h' : ¬ xD (l.map (Rat.cast : ℚ → ℝ)) (i' + 1) ≤ ((xp : ℚ) : ℝ) := by
        rw [xD_cast, Rat.cast_le]; exact h
      conv_lhs => rw [promLeft]
      conv_rhs => rw [promLeft]
      rw [if_neg h', if_neg h]

theorem promRight_cast (l : List ℚ) (xp : ℚ) :
    ∀ (fuel i : ℕ) (m : ℚ) (b : ℕ),
      promRight (l.map (Rat.cast : ℚ → ℝ)) ((xp : ℚ) : ℝ) fuel i ((m : ℚ) : ℝ) b =
        (((promRight l xp fuel i m b).1 : ℝ), (promRight l xp fuel i m b).2) := by
  intro fuel
  induction fuel with
  | zero => intro i m b; rfl
  | succ f ih =>
    intro i m b
    by_cases h : xD l i ≤ xp
    · have h' : xD (l.map (Rat.cast : ℚ → ℝ)) i ≤ ((xp : ℚ) : ℝ) := by
        rw [xD_cast, Rat.cast_le]; exact h
      by_cases h2 : xD l i < m
      · have h2' : xD (l.map (Rat.cast : ℚ → ℝ)) i < ((m : ℚ) : ℝ) := by
          rw [xD_cast, Rat.cast_lt]; exact h2
        conv_lhs => rw [promRight]
        conv_rhs => rw [promRight]
        rw [if_pos h', if_pos h, if_pos h2', if_pos h2, xD_cast]
        exact ih (i + 1) (xD l i) i
      · have h2' : ¬ xD (l.map (Rat.cast : ℚ → ℝ)) i < ((m : ℚ) : ℝ) := by
          rw [xD_cast, Rat.cast_lt]; exact h2
        conv_lhs => rw [promRight]
        conv_rhs => rw [promRight]
        rw [if_pos h', if_pos h, if_neg h2', if_neg h2]
        exact ih (i + 1) m b
    · have h' : ¬ xD (l.map (Rat.cast : ℚ → ℝ)) i ≤ ((xp : ℚ) : ℝ) := by
        rw [xD_cast, Rat.cast_le]; exact h
      conv_lhs => rw [promRight]
      conv_rhs => rw [promRight]
      rw [if_neg h', if_neg h]

theorem promTriple_cast (l : List ℚ) (peak : ℕ) :
    promTriple (l.map (Rat.cast : ℚ → ℝ)) peak =
      (((promTriple l peak).1 : ℝ), (promTriple l peak).2.1,
        (promTriple l peak).2.2) := by
  unfold promTriple
  simp only [List.length_map, xD_cast, promLeft_cast, promRight_cast]
  push_cast
  rfl

theorem peakProminences_cast (l : List ℚ) (peaks : List ℕ) :
    peakProminences (l.map (Rat.cast : ℚ → ℝ)) peaks =
      (peakProminences l peaks).map fun t => ((t.1 : ℝ), t.2.1, t.2.2) := by
  unfold peakProminences
  rw [List.map_map]
  exact List.map_congr_left fun a _ => promTriple_cast l a

theorem widthLeftI_cast (l : List ℚ) (height : ℚ) (iMin : ℕ) :
    ∀ i, widthLeftI (l.map (Rat.cast : ℚ → ℝ)) ((height : ℚ) : ℝ) iMin i =
      widthLeftI l height iMin i := by
  intro i
  induction i with
  | zero => rfl
  | succ i' ih =>
    have hiff : (iMin < i' + 1 ∧
        ((height : ℚ) : ℝ) < xD (l.map (Rat.cast : ℚ → ℝ)) (i' + 1)) ↔
        (iMin < i' + 1 ∧ height < xD l (i' + 1)) := by
      rw [xD_cast, Rat.cast_lt]
    by_cases h : iMin < i' + 1 ∧ height < xD l (i' + 1)
    · conv_lhs => rw [widthLeftI]
      conv_rhs => rw [widthLeftI]
      rw [if_pos (hiff.mpr h), if_pos h, ih]
    · conv_lhs => rw [widthLeftI]
      conv_rhs => rw [widthLeftI]
      rw [if_neg (fun hc => h (hiff.mp hc)), if_neg h]

theorem widthRightI_cast (l : List ℚ) (height : ℚ) :
    ∀ (fuel i : ℕ),
      widthRightI (l.map (Rat.cast : ℚ → ℝ)) ((height : ℚ) : ℝ) fuel i =
        widthRightI l height fuel i := by
  intro fuel
  induction fuel with
  | zero => intro i; rfl
  | succ f ih =>
    intro i
    have hiff : (((height : ℚ) : ℝ) < xD (l.map (Rat.cast : ℚ → ℝ)) i) ↔
        (height < xD l i) := by
      rw [xD_cast, Rat.cast_lt]
    by_cases h : height < xD l i
    · conv_lhs => rw [widthRightI]
      conv_rhs => rw [widthRightI]
      rw [if_pos (hiff.mpr h), if_pos h]
      exact ih (i + 1)
    · conv_lhs => rw [widthRightI]
      conv_rhs => rw [widthRightI]
      rw [if_neg (fun hc => h (hiff.mp hc)), if_neg h]

theorem interpLeft_cast (l : List ℚ) (height : ℚ) (li : ℕ) :
    interpLeft (l.map (Rat.cast : ℚ → ℝ)) ((height : ℚ) : ℝ) li =
      ((interpLeft l height li : ℚ) : ℝ) := by
  unfold interpLeft
  by_cases h : xD l li < height
  · have h' : xD (l.map (Rat.cast : ℚ → ℝ)) li < ((height : ℚ) : ℝ) := by
      rw [xD_cast, Rat.cast_lt]; exact h
    rw [if_pos h', if_pos h, xD_cast, xD_cast]
    push_cast
    ring
  · have h' : ¬ xD (l.map (Rat.cast : ℚ → ℝ)) li < ((height : ℚ) : ℝ) := by
      rw [xD_cast, Rat.cast_lt]; exact h
    rw [if_neg h', if_neg h]
    push_cast
    ring

theorem interpRight_cast (l : List ℚ) (height : ℚ) (ri : ℕ) :
    interpRight (l.map (Rat.cast : ℚ → ℝ)) ((height : ℚ) : ℝ) ri =
      ((interpRight l height ri : ℚ) : ℝ) := by
  unfold interpRight
  by_cases h : xD l ri < height
  · have h' : xD (l.map (Rat.cast : ℚ → ℝ)) ri < ((height : ℚ) : ℝ) := by
      rw [xD_cast, Rat.cast_lt]; exact h
    rw [if_pos h', if_pos h, xD_cast, xD_cast]
    push_cast
    ring
  · have h' : ¬ xD (l.map (Rat.cast : ℚ → ℝ)) ri < ((height : ℚ) : ℝ) := by
      rw [xD_cast, Rat.cast_lt]; exact h
    rw [if_neg h', if_neg h]
    push_cast
    ring

theorem widthOf_cast (l : List ℚ) (peak : ℕ) (prom : ℚ) (lb rb : ℕ) :
    widthOf (l.map (Rat.cast : ℚ → ℝ)) peak ((prom : ℚ) : ℝ) lb rb =
      ((widthOf l peak prom lb rb : ℚ) : ℝ) := by
  unfold widthOf
  have hh : xD (l.map (Rat.cast : ℚ → ℝ)) peak - ((prom : ℚ) : ℝ) / 2 =
      (((xD l peak - prom / 2 : ℚ) : ℚ) : ℝ) := by
    rw [xD_cast]; push_cast; ring
  rw [hh, widthLeftI_cast, widthRightI_cast, interpLeft_cast, interpRight_cast]
  push_cast
  ring

theorem distanceFiltered_cast (l : List ℚ) :
    distanceFiltered (l.map (Rat.cast : ℚ → ℝ)) = distanceFiltered l := by
  unfold distanceFiltered
  rw [localMaxima_cast]
  have hp : (localMaxima l).map (xD (l.map (Rat.cast : ℚ → ℝ))) =
      ((localMaxima l).map (xD l)).map (Rat.cast : ℚ → ℝ) := by
    rw [List.map_map]
    exact List.map_congr_left fun a _ => xD_cast l a
  rw [hp, selectByPeakDistance_cast]

theorem findPeaks_cast (l : List ℚ) :
    findPeaks (l.map (Rat.cast : ℚ → ℝ)) =
      (findPeaks l).map fun q => (q.1, ((q.2 : ℚ) : ℝ)) := by
  unfold findPeaks
  rw [distanceFiltered_cast]
  induction distanceFiltered l with
  | nil => rfl
  | cons p rest ih =>
    have e1 : (promTriple (l.map (Rat.cast : ℚ → ℝ)) p).1 =
        (((promTriple l p).1 : ℚ) : ℝ) := by rw [promTriple_cast]
    have e21 : (promTriple (l.map (Rat.cast : ℚ → ℝ)) p).2.1 =
        (promTriple l p).2.1 := by rw [promTriple_cast]
    have e22 : (promTriple (l.map (Rat.cast : ℚ → ℝ)) p).2.2 =
        (promTriple l p).2.2 := by rw [promTriple_cast]
    have e2 : widthOf (l.map (Rat.cast : ℚ → ℝ)) p
        (promTriple (l.map (Rat.cast : ℚ → ℝ)) p).1
        (promTriple (l.map (Rat.cast : ℚ → ℝ)) p).2.1
        (promTriple (l.map (Rat.cast : ℚ → ℝ)) p).2.2 =
        ((widthOf l p (promTriple l p).1 (promTriple l p).2.1
          (promTriple l p).2.2 : ℚ) : ℝ) := by
      rw [e1, e21, e22]
      exact widthOf_cast l p (promTriple l p).1 (promTriple l p).2.1
        (promTriple l p).2.2
    simp only [List.map_cons, List.filter_cons]
    by_cases h1 : (1 / 100 : ℚ) ≤ (promTriple l p).1
    · have h1' : (1 / 100 : ℝ) ≤ (promTriple (l.map (Rat.cast : ℚ → ℝ)) p).1 := by
        rw [e1, show (1 / 100 : ℝ) = (((1 / 100 : ℚ) : ℚ) : ℝ) by norm_num,
          Rat.cast_le]
        exact h1
      rw [if_pos (decide_eq_true h1'), if_pos (decide_eq_true h1),
        List.filter_cons, List.filter_cons]
      by_cases h2 : (2 : ℚ) ≤ widthOf l p (promTriple l p).1
          (promTriple l p).2.1 (promTriple l p).2.2
      · have h2' : (2 : ℝ) ≤ widthOf (l.map (Rat.cast : ℚ → ℝ)) p
            (promTriple (l.map (Rat.cast : ℚ → ℝ)) p).1
            (promTriple (l.map (Rat.cast : ℚ → ℝ)) p).2.1
            (promTriple (l.map (Rat.cast : ℚ → ℝ)) p).2.2 := by
          rw [e2, show (2 : ℝ) = (((2 : ℚ) : ℚ) : ℝ) by norm_num, Rat.cast_le]
          exact h2
        rw [if_pos (decide_eq_true h2'), if_pos (decide_eq_true h2),
          List.map_cons, List.map_cons, ih]
        simp only [e1]
        rw [List.map_cons]
      · have h2' : ¬ (2 : ℝ) ≤ widthOf (l.map (Rat.cast : ℚ → ℝ)) p
            (promTriple (l.map (Rat.cast : ℚ → ℝ)) p).1
            (promTriple (l.map (Rat.cast : ℚ → ℝ)) p).2.1
            (promTriple (l.map (Rat.cast : ℚ → ℝ)) p).2.2 := by
          rw [e2, show (2 : ℝ) = (((2 : ℚ) : ℚ) : ℝ) by norm_num, Rat.cast_le]
          exact h2
        rw [if_neg (fun hc => h2' (of_decide_eq_true hc)),
          if_neg (fun hc => h2 (of_decide_eq_true hc)), ih]
    · have h1' : ¬ (1 / 100 : ℝ) ≤ (promTriple (l.map (Rat.cast : ℚ → ℝ)) p).1 := by
        rw [e1, show (1 / 100 : ℝ) = (((1 / 100 : ℚ) : ℚ) : ℝ) by norm_num,
          Rat.cast_le]
        exact h1
      rw [if_neg (fun hc => h1' (of_decide_eq_true hc)),
        if_neg (fun hc => h1 (of_decide_eq_true hc)), ih]

theorem getD_map_cast (pk : List (ℕ × ℚ)) (k : ℕ) :
    (pk.map fun q => (q.1, ((q.2 : ℚ) : ℝ))).getD k (0, 0) =
      ((pk.getD k (0, 0)).1, (((pk.getD k (0, 0)).2 : ℚ) : ℝ)) := by
  rcases h : pk[k]? with _ | a
  · simp [List.getD_eq_getElem?_getD, h]
  · simp [List.getD_eq_getElem?_getD, h]

theorem rankPeaks_cast (pk : List (ℕ × ℚ)) :
    rankPeaks (pk.map fun q => (q.1, ((q.2 : ℚ) : ℝ))) =
      (rankPeaks pk).map fun q => (q.1, ((q.2 : ℚ) : ℝ)) := by
  unfold rankPeaks
  have hsnd : (pk.map fun q => (q.1, ((q.2 : ℚ) : ℝ))).map Prod.snd =
      (pk.map Prod.snd).map (Rat.cast : ℚ → ℝ) := by
    rw [List.map_map, List.map_map]; rfl
  rw [hsnd, argsort_cast, List.map_map]
  exact List.map_congr_left fun k _ => getD_map_cast pk k

/-- Evaluation bridge: when a spectrum's `find_peaks` input signal is a list
of rationals (cast to `ℝ`), the accepted peaks are the exact image of the
rational computation. -/
theorem selectedPeaks_of_signal (df : List Row) (l : List ℚ)
    (h : spectrumSignal df = l.map (Rat.cast : ℚ → ℝ)) :
    selectedPeaks df = (rankPeaks (findPeaks l)).map fun q =>
      (q.1, ((q.2 : ℚ) : ℝ)) := by
  unfold selectedPeaks
  rw [h, findPeaks_cast, rankPeaks_cast]

/-!
Concrete spectra.  Transmittance values are powers of ten, so every
absorbance `log10 (100 / t)` is an integer and the `find_peaks` input signal
is (the real image of) a rational list, which the transport lemmas above let
us evaluate exactly.
-/

theorem logb10_pow (n : ℕ) : Real.logb 10 ((10 : ℝ) ^ n) = n := by
  rw [Real.logb_pow, Real.logb_self_eq_one] <;> norm_num

theorem negAbs_t100 : -(Real.logb 10 ((100 : ℝ) / 100)) = ((0 : ℚ) : ℝ) := by
  rw [show (100 : ℝ) / 100 = 10 ^ (0 : ℕ) by norm_num, logb10_pow]
  norm_num

theorem negAbs_t1 : -(Real.logb 10 ((100 : ℝ) / 1)) = ((-2 : ℚ) : ℝ) := by
  rw [show (100 : ℝ) / 1 = 10 ^ (2 : ℕ) by norm_num, logb10_pow]
  norm_num

theorem negAbs_t10 : -(Real.logb 10 ((100 : ℝ) / 10)) = ((-1 : ℚ) : ℝ) := by
  rw [show (100 : ℝ) / 10 = 10 ^ (1 : ℕ) by norm_num, logb10_pow]
  norm_num

theorem negAbs_tTenth : -(Real.logb 10 ((100 : ℝ) / (1 / 10))) = ((-3 : ℚ) : ℝ) := by
  rw [show (100 : ℝ) / (1 / 10) = 10 ^ (3 : ℕ) by norm_num, logb10_pow]
  norm_num

theorem negAbs_tThousandth :
    -(Real.logb 10 ((100 : ℝ) / (1 / 1000))) = ((-5 : ℚ) : ℝ) := by
  rw [show (100 : ℝ) / (1 / 1000) = 10 ^ (5 : ℕ) by norm_num, logb10_pow]
  norm_num

theorem negAbs_tTenThousandth :
    -(Real.logb 10 ((100 : ℝ) / (1 / 10000))) = ((-6 : ℚ) : ℝ) := by
  rw [show (100 : ℝ) / (1 / 10000) = 10 ^ (6 : ℕ) by norm_num, logb10_pow]
  norm_num

/-- Input table of the C1 scenario: 41 rows spanning 4000…2000 cm⁻¹ at a
50 cm⁻¹ step, transmittance 100 everywhere except a single clear dip to 1
at rows 29–31 (wavenumbers 2550, 2500, 2450). -/
noncomputable def csv1 : List (List ℝ) :=
  [[4000, 100],
   [3950, 100],
   [3900, 100],
   [3850, 100],
   [3800, 100],
   [3750, 100],
   [3700, 100],
   [3650, 100],
   [3600, 100],
   [3550, 100],
   [3500, 100],
   [3450, 100],
   [3400, 100],
   [3350, 100],
   [3300, 100],
   [3250, 100],
   [3200, 100],
   [3150, 100],
   [3100, 100],
   [3050, 100],
   [3000, 100],
   [2950, 100],
   [2900, 100],
   [2850, 100],
   [2800, 100],
   [2750, 100],
   [2700, 100],
   [2650, 100],
   [2600, 100],
   [2550, 1],
   [2500, 1],
   [2450, 1],
   [2400, 100],
   [2350, 100],
   [2300, 100],
   [2250, 100],
   [2200, 100],
   [2150, 100],
   [2100, 100],
   [2050, 100],
   [2000, 100]]

/-- Negated-absorbance signal of `csv1`: 0 on the baseline, −2 in the dip. -/
def sig1q : List ℚ := [0, 0, 0, 0, 0, 0, 0, 0, 0, 0, 0, 0, 0, 0, 0, 0, 0, 0, 0, 0, 0, 0, 0, 0, 0, 0, 0, 0, 0, -2, -2, -2, 0, 0, 0, 0, 0, 0, 0, 0, 0]

theorem sig1_eq : spectrumSignal (csv1.map mkRow) = sig1q.map (Rat.cast : ℚ → ℝ) := by
  simp only [spectrumSignal, mkRow, csv1, sig1q, List.map_cons, List.map_nil,
    List.getD_cons_zero, List.getD_cons_succ, negAbs_t100, negAbs_t1]

theorem rank1 : rankPeaks (findPeaks sig1q) = [] := by decide

theorem sel1 : selectedPeaks (csv1.map mkRow) = [] := by
  rw [selectedPeaks_of_signal (csv1.map mkRow) sig1q sig1_eq, rank1]
  rfl

/-- Input table with two identical transmittance bumps (rows 10–12 and
31–33, both plateaus at 100 over a baseline of 1), whose two detected peaks
have exactly equal prominence. -/
noncomputable def csv4 : List (List ℝ) :=
  [[4000, 1],
   [3950, 1],
   [3900, 1],
   [3850, 1],
   [3800, 1],
   [3750, 1],
   [3700, 1],
   [3650, 1],
   [3600, 1],
   [3550, 1],
   [3500, 100],
   [3450, 100],
   [3400, 100],
   [3350, 1],
   [3300, 1],
   [3250, 1],
   [3200, 1],
   [3150, 1],
   [3100, 1],
   [3050, 1],
   [3000, 1],
   [2950, 1],
   [2900, 1],
   [2850, 1],
   [2800, 1],
   [2750, 1],
   [2700, 1],
   [2650, 1],
   [2600, 1],
   [2550, 1],
   [2500, 1],
   [2450, 100],
   [2400, 100],
   [2350, 100],
   [2300, 1],
   [2250, 1],
   [2200, 1],
   [2150, 1],
   [2100, 1],
   [2050, 1],
   [2000, 1],
   [1950, 1],
   [1900, 1],
   [1850, 1],
   [1800, 1]]

/-- Negated-absorbance signal of `csv4`. -/
def sig4q : List ℚ := [-2, -2, -2, -2, -2, -2, -2, -2, -2, -2, 0, 0, 0, -2, -2, -2, -2, -2, -2, -2, -2, -2, -2, -2, -2, -2, -2, -2, -2, -2, -2, 0, 0, 0, -2, -2, -2, -2, -2, -2, -2, -2, -2, -2, -2]

theorem sig4_eq : spectrumSignal (csv4.map mkRow) = sig4q.map (Rat.cast : ℚ → ℝ) := by
  simp only [spectrumSignal, mkRow, csv4, sig4q, List.map_cons, List.map_nil,
    List.getD_cons_zero, List.getD_cons_succ, negAbs_t100, negAbs_t1]

theorem df4 : distanceFiltered sig4q = [11, 32] := by decide

theorem prom4a : promTriple sig4q 11 = (2, 9, 13) := by
  norm_num [promTriple, promLeft, promRight, xD, sig4q]

theorem prom4b : promTriple sig4q 32 = (2, 30, 34) := by
  norm_num [promTriple, promLeft, promRight, xD, sig4q]

theorem width4a : widthOf sig4q 11 2 9 13 = 3 := by
  norm_num [widthOf, widthLeftI, widthRightI, interpLeft, interpRight, xD, sig4q]

theorem width4b : widthOf sig4q 32 2 30 34 = 3 := by
  norm_num [widthOf, widthLeftI, widthRightI, interpLeft, interpRight, xD, sig4q]

theorem fp4 : findPeaks sig4q = [(11, 2), (32, 2)] := by
  rw [findPeaks, df4]
  norm_num [prom4a, prom4b, width4a, width4b]

theorem rank4 : rankPeaks (findPeaks sig4q) = [(32, 2), (11, 2)] := by
  rw [fp4]
  decide

theorem sel4 : selectedPeaks (csv4.map mkRow) =
    [(32, ((2 : ℚ) : ℝ)), (11, ((2 : ℚ) : ℝ))] := by
  rw [selectedPeaks_of_signal (csv4.map mkRow) sig4q sig4_eq, rank4]
  rfl

/-- Input table on which the distance filter's height priority and the
spec's prominence priority disagree: candidates at rows 3 and 7 are 4
samples apart; row 3 sits higher (transmittance 10 over its plateau) but,
nestled against the tall row-1 shoulder, has prominence 2, while row 7
(transmittance 1) has prominence 3. -/
noncomputable def csv5 : List (List ℝ) :=
  [[4000, 100], [3950, 1/10], [3900, 10], [3850, 10], [3800, 10],
   [3750, 1/1000], [3700, 1], [3650, 1], [3600, 1], [3550, 1/10000],
   [3500, 1/10000]]

/-- Negated-absorbance signal of `csv5`. -/
def sig5q : List ℚ := [0, -3, -1, -1, -1, -5, -2, -2, -2, -6, -6]

theorem sig5_eq : spectrumSignal (csv5.map mkRow) = sig5q.map (Rat.cast : ℚ → ℝ) := by
  simp only [spectrumSignal, mkRow, csv5, sig5q, List.map_cons, List.map_nil,
    List.getD_cons_zero, List.getD_cons_succ, negAbs_t100, negAbs_t1, negAbs_t10,
    negAbs_tTenth, negAbs_tThousandth, negAbs_tTenThousandth]

theorem lm5 : localMaxima sig5q = [3, 7] := by decide

theorem df5 : distanceFiltered sig5q = [3] := by decide

theorem prom5a : promTriple sig5q 3 = (2, 1, 9) := by
  norm_num [promTriple, promLeft, promRight, xD, sig5q]

theorem prom5b : promTriple sig5q 7 = (3, 5, 9) := by
  norm_num [promTriple, promLeft, promRight, xD, sig5q]

theorem width5 : widthOf sig5q 3 2 1 9 = 11 / 4 := by
  norm_num [widthOf, widthLeftI, widthRightI, interpLeft, interpRight, xD, sig5q]

theorem fp5 : findPeaks sig5q = [(3, 2)] := by
  rw [findPeaks, df5]
  norm_num [prom5a, width5]

theorem rank5 : rankPeaks (findPeaks sig5q) = [(3, 2)] := by
  rw [fp5]
  decide

theorem sel5 : selectedPeaks (csv5.map mkRow) = [(3, ((2 : ℚ) : ℝ))] := by
  rw [selectedPeaks_of_signal (csv5.map mkRow) sig5q sig5_eq, rank5]
  rfl

/-!
Order-theoretic facts about the modelled `np.argsort`: it is a permutation
of `range n`, sorted in the lexicographic `(priority, index)` order.
-/

/-- Order in which `argsort` lists indices: ascending priority, ties in
ascending index order (stability). -/
def lexLe (p : List α) (a b : ℕ) : Prop :=
  xD p a < xD p b ∨ (xD p a = xD p b ∧ a ≤ b)

theorem lexLe_of_not (p : List α) {a b : ℕ} (h : ¬ lexLe p a b) : lexLe p b a := by
  unfold lexLe at h ⊢
  rcases lt_trichotomy (xD p b) (xD p a) with hlt | heq | hgt
  · exact Or.inl hlt
  · refine Or.inr ⟨heq, ?_⟩
    rcases Nat.le_total a b with hab | hba
    · exact absurd (Or.inr ⟨heq.symm, hab⟩) h
    · exact hba
  · exact absurd (Or.inl hgt) h

theorem lexLe_trans (p : List α) {a b c : ℕ} (h1 : lexLe p a b) (h2 : lexLe p b c) :
    lexLe p a c := by
  unfold lexLe at h1 h2 ⊢
  rcases h1 with h1 | ⟨h1e, h1le⟩
  · rcases h2 with h2 | ⟨h2e, _⟩
    · exact Or.inl (lt_trans h1 h2)
    · exact Or.inl (h2e ▸ h1)
  · rcases h2 with h2 | ⟨h2e, h2le⟩
    · exact Or.inl (h1e ▸ h2)
    · exact Or.inr ⟨h1e.trans h2e, le_trans h1le h2le⟩

theorem insertIdx_perm (p : List α) (i : ℕ) (L : List ℕ) :
    (insertIdx p i L).Perm (i :: L) := by
  induction L with
  | nil => exact List.Perm.refl _
  | cons j rest ih =>
    rw [insertIdx]
    split
    · exact List.Perm.refl _
    · exact ((ih.cons j).trans (List.Perm.swap i j rest))

theorem mem_insertIdx {p : List α} {i a : ℕ} {L : List ℕ} :
    a ∈ insertIdx p i L ↔ a = i ∨ a ∈ L := by
  rw [(insertIdx_perm p i L).mem_iff, List.mem_cons]

theorem insertIdx_pairwise {p : List α} {i : ℕ} {L : List ℕ}
    (h : L.Pairwise (lexLe p)) : (insertIdx p i L).Pairwise (lexLe p) := by
  induction L with
  | nil => simp [insertIdx, List.pairwise_cons]
  | cons j rest ih =>
    rw [insertIdx]
    rcases List.pairwise_cons.mp h with ⟨hj, hrest⟩
    split
    · rename_i hc
      have hij : lexLe p i j := hc
      refine List.pairwise_cons.mpr ⟨?_, h⟩
      intro a ha
      rcases List.mem_cons.mp ha with rfl | ha
      · exact hij
      · exact lexLe_trans p hij (hj a ha)
    · rename_i hc
      have hji : lexLe p j i := lexLe_of_not p hc
      refine List.pairwise_cons.mpr ⟨?_, ih hrest⟩
      intro a ha
      rcases mem_insertIdx.mp ha with rfl | ha
      · exact hji
      · exact hj a ha

theorem argsort_perm (p : List α) : (argsort p).Perm (List.range p.length) := by
  unfold argsort
  have h : ∀ L : List ℕ, (L.foldr (insertIdx p) []).Perm L := by
    intro L
    induction L with
    | nil => exact List.Perm.refl _
    | cons j rest ih =>
      rw [List.foldr_cons]
      exact (insertIdx_perm p j _).trans (ih.cons j)
  exact h (List.range p.length)

theorem argsort_pairwise (p : List α) : (argsort p).Pairwise (lexLe p) := by
  unfold argsort
  have h : ∀ L : List ℕ, (L.foldr (insertIdx p) []).Pairwise (lexLe p) := by
    intro L
    induction L with
    | nil => exact List.Pairwise.nil
    | cons j rest ih => exact insertIdx_pairwise ih
  exact h (List.range p.length)

theorem mem_argsort {p : List α} {a : ℕ} : a ∈ argsort p ↔ a < p.length := by
  rw [(argsort_perm p).mem_iff, List.mem_range]

theorem argsort_nodup (p : List α) : (argsort p).Nodup :=
  (argsort_perm p).nodup_iff.mpr (List.nodup_range p.length)

theorem xD_map_snd (pk : List (ℕ × α)) (k : ℕ) :
    xD (pk.map Prod.snd) k = (pk.getD k (0, 0)).2 := by
  unfold xD
  rcases h : pk[k]? with _ | a
  · simp [List.getD_eq_getElem?_getD, h]
  · simp [List.getD_eq_getElem?_getD, h]

/-- Ranking invariant behind the PeakTable ordering: `rankPeaks` lists its
records by non-increasing prominence and returns at most ten of them. -/
theorem rankPeaks_sorted (pk : List (ℕ × α)) :
    (rankPeaks pk).Pairwise fun a b => b.2 ≤ a.2 := by
  unfold rankPeaks
  rw [List.pairwise_map]
  have h1 : ((argsort (pk.map Prod.snd)).reverse.take 10).Pairwise
      fun a b => lexLe (pk.map Prod.snd) b a :=
    ((List.pairwise_reverse.mpr (argsort_pairwise (pk.map Prod.snd))).sublist
      (List.take_sublist 10 _))
  refine h1.imp ?_
  intro a b hab
  rcases hab with hlt | ⟨heq, _⟩
  · rw [xD_map_snd, xD_map_snd] at hlt
    exact le_of_lt hlt
  · rw [xD_map_snd, xD_map_snd] at heq
    exact le_of_eq heq

theorem rankPeaks_length_le (pk : List (ℕ × α)) : (rankPeaks pk).length ≤ 10 := by
  unfold rankPeaks
  rw [List.length_map]
  exact le_trans (List.length_take_le 10 _) (le_refl 10)

/-!
Structural facts: detected local maxima are strictly increasing indices, the
distance filter selects a sublist of them, and the final `findPeaks` output
lists a sublist of the distance-filtered candidates.
-/

theorem localMaximaAux_lb (x : List α) (iMax : ℕ) :
    ∀ (fuel i : ℕ), ∀ m ∈ localMaximaAux x iMax fuel i, i ≤ m := by
  intro fuel
  induction fuel with
  | zero => intro i m hm; simp [localMaximaAux] at hm
  | succ f ih =>
    intro i m hm
    rw [localMaximaAux] at hm
    by_cases h1 : i < iMax
    · rw [if_pos h1] at hm
      split at hm
      · split at hm
        · rcases List.mem_cons.mp hm with rfl | hm
          · have hsg : i + 1 ≤ scanPlateau x (xD x i) (iMax - (i + 1)) (i + 1) :=
              scanPlateau_ge x (xD x i) (iMax - (i + 1)) (i + 1)
            omega
          · have := ih _ m hm
            have hsg : i + 1 ≤ scanPlateau x (xD x i) (iMax - (i + 1)) (i + 1) :=
              scanPlateau_ge x (xD x i) (iMax - (i + 1)) (i + 1)
            omega
        · have := ih (i + 1) m hm
          omega
      · have := ih (i + 1) m hm
        omega
    · rw [if_neg h1] at hm
      simp at hm

theorem localMaximaAux_sorted (x : List α) (iMax : ℕ) :
    ∀ (fuel i : ℕ), (localMaximaAux x iMax fuel i).Pairwise (· < ·) := by
  intro fuel
  induction fuel with
  | zero => intro i; simp [localMaximaAux]
  | succ f ih =>
    intro i
    rw [localMaximaAux]
    by_cases h1 : i < iMax
    · rw [if_pos h1]
      split
      · split
        · refine List.pairwise_cons.mpr ⟨?_, ih _⟩
          intro m hm
          have hm' := localMaximaAux_lb x iMax f _ m hm
          have hsg : i + 1 ≤ scanPlateau x (xD x i) (iMax - (i + 1)) (i + 1) :=
            scanPlateau_ge x (xD x i) (iMax - (i + 1)) (i + 1)
          omega
        · exact ih (i + 1)
      · exact ih (i + 1)
    · rw [if_neg h1]
      exact List.Pairwise.nil

theorem localMaxima_sorted (x : List α) : (localMaxima x).Pairwise (· < ·) :=
  localMaximaAux_sorted x (x.length - 1) (x.length - 1) 1

theorem filterMap_zip_sublist (l : List ℕ) :
    ∀ kp : List Bool,
      List.Sublist ((l.zip kp).filterMap fun q => if q.2 then some q.1 else none) l := by
  induction l with
  | nil => intro kp; simp
  | cons a l ih =>
    intro kp
    cases kp with
    | nil => simp
    | cons b kp =>
      rw [List.zip_cons_cons, List.filterMap_cons]
      cases b
      · exact (ih kp).cons a
      · exact (ih kp).cons₂ a

theorem distanceFiltered_sublist (x : List α) :
    List.Sublist (distanceFiltered x) (localMaxima x) :=
  filterMap_zip_sublist (localMaxima x) _

theorem distanceFiltered_sorted (x : List α) :
    (distanceFiltered x).Pairwise (· < ·) :=
  (localMaxima_sorted x).sublist (distanceFiltered_sublist x)

theorem findPeaks_fst_sublist (x : List α) :
    List.Sublist ((findPeaks x).map Prod.fst) (distanceFiltered x) := by
  unfold findPeaks
  have h1 : List.Sublist ((((distanceFiltered x).map fun p => (p, promTriple x p)).filter fun q =>
      decide ((1 / 100 : α) ≤ q.2.1)).filter fun q =>
      decide ((2 : α) ≤ widthOf x q.1 q.2.1 q.2.2.1 q.2.2.2))
      ((distanceFiltered x).map fun p => (p, promTriple x p)) :=
    (List.filter_sublist _).trans (List.filter_sublist _)
  have h2 := (h1.map fun q : ℕ × α × ℕ × ℕ => (q.1, q.2.1)).map Prod.fst
  have h3 : List.map Prod.fst (List.map (fun q : ℕ × α × ℕ × ℕ => (q.1, q.2.1))
      ((distanceFiltered x).map fun p => (p, promTriple x p))) = distanceFiltered x := by
    rw [List.map_map, List.map_map]
    exact List.map_id'' (fun a => rfl) (distanceFiltered x)
  rw [h3] at h2
  exact h2

theorem findPeaks_fst_sorted (x : List α) :
    ((findPeaks x).map Prod.fst).Pairwise (· < ·) :=
  (distanceFiltered_sorted x).sublist (findPeaks_fst_sublist x)

/-!
Correctness of the distance filter: any two retained candidates are at
least `dist` samples apart.  The argument follows the algorithm: candidates
are visited in priority order; a still-retained candidate discards every
other candidate within `dist`, retention only ever decreases, so two
surviving candidates can never be close.
-/

theorem getD_set_self {l : List Bool} {j : ℕ} {b d : Bool} (h : j < l.length) :
    (l.set j b).getD j d = b := by
  simp [List.getD_eq_getElem?_getD, List.getElem?_set, h]

theorem getD_set_ne {l : List Bool} {j k : ℕ} {b d : Bool} (h : j ≠ k) :
    (l.set j b).getD k d = l.getD k d := by
  simp [List.getD_eq_getElem?_getD, List.getElem?_set, h]

theorem getD_set_true {l : List Bool} {j k : ℕ}
    (h : (l.set j false).getD k true = true) : l.getD k true = true := by
  rcases eq_or_ne j k with rfl | hne
  · by_cases hl : j < l.length
    · rw [getD_set_self hl] at h
      cases h
    · rw [List.getD_eq_getElem?_getD, List.getElem?_set, if_pos rfl,
        if_neg hl] at h
      rw [List.getD_eq_getElem?_getD, List.getElem?_eq_none (le_of_not_lt hl)]
      exact h
  · rwa [getD_set_ne hne] at h

theorem killLeft_length (peaks : List ℕ) (pj dist : ℤ) :
    ∀ (m : ℕ) (keep : List Bool),
      (killLeft peaks pj dist m keep).length = keep.length := by
  intro m
  induction m with
  | zero => intro keep; rfl
  | succ m' ih =>
    intro keep
    rw [killLeft]
    split
    · rw [ih]
      exact List.length_set ..
    · rfl

theorem killRight_length (peaks : List ℕ) (pj dist : ℤ) :
    ∀ (fuel k : ℕ) (keep : List Bool),
      (killRight peaks pj dist fuel k keep).length = keep.length := by
  intro fuel
  induction fuel with
  | zero => intro k keep; rfl
  | succ f ih =>
    intro k keep
    rw [killRight]
    split
    · rw [ih]
      exact List.length_set ..
    · rfl

theorem killLeft_true (peaks : List ℕ) (pj dist : ℤ) :
    ∀ (m : ℕ) (keep : List Bool) (k : ℕ),
      (killLeft peaks pj dist m keep).getD k true = true →
      keep.getD k true = true := by
  intro m
  induction m with
  | zero => intro keep k h; exact h
  | succ m' ih =>
    intro keep k h
    rw [killLeft] at h
    split at h
    · exact getD_set_true (ih _ k h)
    · exact h

theorem killRight_true (peaks : List ℕ) (pj dist : ℤ) :
    ∀ (fuel start : ℕ) (keep : List Bool) (k : ℕ),
      (killRight peaks pj dist fuel start keep).getD k true = true →
      keep.getD k true = true := by
  intro fuel
  induction fuel with
  | zero => intro start keep k h; exact h
  | succ f ih =>
    intro start keep k h
    rw [killRight] at h
    split at h
    · exact getD_set_true (ih _ _ k h)
    · exact h

theorem sbpdStep_true (peaks : List ℕ) (dist : ℤ) (keep : List Bool) (j k : ℕ)
    (h : (sbpdStep peaks dist keep j).getD k true = true) :
    keep.getD k true = true := by
  unfold sbpdStep at h
  split at h
  · exact h
  · exact killLeft_true peaks _ dist j keep k
      (killRight_true peaks _ dist _ _ _ k h)

theorem foldl_sbpd_true (peaks : List ℕ) (dist : ℤ) :
    ∀ (L : List ℕ) (keep : List Bool) (k : ℕ),
      ((L.foldl (sbpdStep peaks dist) keep).getD k true = true) →
      keep.getD k true = true := by
  intro L
  induction L with
  | nil => intro keep k h; exact h
  | cons j L' ih =>
    intro keep k h
    rw [List.foldl_cons] at h
    exact sbpdStep_true peaks dist keep j k (ih _ k h)

theorem sbpdStep_length (peaks : List ℕ) (dist : ℤ) (keep : List Bool) (j : ℕ) :
    (sbpdStep peaks dist keep j).length = keep.length := by
  unfold sbpdStep
  split
  · rfl
  · rw [killRight_length, killLeft_length]

theorem sorted_getD_le {peaks : List ℕ} (hs : peaks.Pairwise (· < ·))
    {k k' : ℕ} (hkk : k ≤ k') (hk' : k' < peaks.length) :
    peaks.getD k 0 ≤ peaks.getD k' 0 := by
  rcases Nat.eq_or_lt_of_le hkk with rfl | hlt
  · exact le_refl _
  · have hk : k < peaks.length := lt_trans hlt hk'
    have hp := List.pairwise_iff_getElem.mp hs k k' hk hk' hlt
    simp only [List.getD_eq_getElem?_getD, List.getElem?_eq_getElem hk,
      List.getElem?_eq_getElem hk', Option.getD_some]
    exact le_of_lt hp

theorem killLeft_kills {peaks : List ℕ} (hs : peaks.Pairwise (· < ·))
    {j : ℕ} (hj : j < peaks.length) (dist : ℤ) :
    ∀ (m : ℕ) (keep : List Bool), m ≤ j → keep.length = peaks.length →
      ∀ k, k < m → (peaks.getD j 0 : ℤ) - peaks.getD k 0 < dist →
        (killLeft peaks (peaks.getD j 0 : ℤ) dist m keep).getD k true = false := by
  intro m
  induction m with
  | zero => intro keep _ _ k hk; exact absurd hk (Nat.not_lt_zero k)
  | succ m' ih =>
    intro keep hm hlen k hk hnear
    rw [killLeft]
    have hmono : peaks.getD k 0 ≤ peaks.getD m' 0 :=
      sorted_getD_le hs (by omega) (by omega)
    have hcond : (peaks.getD j 0 : ℤ) - (peaks.getD m' 0 : ℤ) < dist := by omega
    rw [if_pos hcond]
    rcases Nat.lt_succ_iff_lt_or_eq.mp hk with hklt | rfl
    · exact ih (keep.set m' false) (by omega)
        (by rw [List.length_set]; exact hlen) k hklt hnear
    · have hset : (keep.set k false).getD k true = false :=
        getD_set_self (by omega)
      cases hres : (killLeft peaks (peaks.getD j 0 : ℤ) dist k
          (keep.set k false)).getD k true
      · rfl
      · have := killLeft_true peaks _ dist k (keep.set k false) k hres
        rw [hset] at this
        cases this
  -- end

theorem killRight_kills {peaks : List ℕ} (hs : peaks.Pairwise (· < ·))
    (dist pj : ℤ) :
    ∀ (fuel start : ℕ) (keep : List Bool), start + fuel = peaks.length →
      keep.length = peaks.length →
      ∀ k, start ≤ k → k < peaks.length → (peaks.getD k 0 : ℤ) - pj < dist →
        (killRight peaks pj dist fuel start keep).getD k true = false := by
  intro fuel
  induction fuel with
  | zero => intro start keep hsf _ k h1 h2 _; omega
  | succ f ih =>
    intro start keep hsf hlen k h1 h2 h3
    rw [killRight]
    have hmono : peaks.getD start 0 ≤ peaks.getD k 0 := sorted_getD_le hs h1 h2
    have hcond : (peaks.getD start 0 : ℤ) - pj < dist := by omega
    rw [if_pos hcond]
    rcases Nat.eq_or_lt_of_le h1 with rfl | hlt
    · have hset : (keep.set start false).getD start true = false :=
        getD_set_self (by omega)
      cases hres : (killRight peaks pj dist f (start + 1)
          (keep.set start false)).getD start true
      · rfl
      · have := killRight_true peaks pj dist f (start + 1)
          (keep.set start false) start hres
        rw [hset] at this
        cases this
    · exact ih (start + 1) (keep.set start false) (by omega)
        (by rw [List.length_set]; exact hlen) k hlt h2 h3

theorem killLeft_getD_ge (peaks : List ℕ) (pj dist : ℤ) :
    ∀ (m : ℕ) (keep : List Bool) (k : ℕ), m ≤ k →
      (killLeft peaks pj dist m keep).getD k true = keep.getD k true := by
  intro m
  induction m with
  | zero => intro keep k _; rfl
  | succ m' ih =>
    intro keep k hk
    rw [killLeft]
    split
    · rw [ih (keep.set m' false) k (by omega), getD_set_ne (by omega)]
    · rfl

theorem sbpdStep_kills {peaks : List ℕ} (hs : peaks.Pairwise (· < ·)) (dist : ℤ)
    {keep : List Bool} (hlen : keep.length = peaks.length)
    {j k : ℕ} (hj : j < peaks.length) (hk : k < peaks.length) (hne : k ≠ j)
    (hjt : keep.getD j true = true)
    (h1 : (peaks.getD j 0 : ℤ) - peaks.getD k 0 < dist)
    (h2 : (peaks.getD k 0 : ℤ) - peaks.getD j 0 < dist) :
    (sbpdStep peaks dist keep j).getD k true = false := by
  unfold sbpdStep
  rw [if_neg (by rw [hjt]; simp)]
  rcases Nat.lt_or_ge k j with hkj | hjk
  · have hkl : (killLeft peaks (peaks.getD j 0 : ℤ) dist j keep).getD k true = false :=
      killLeft_kills hs hj dist j keep (le_refl j) hlen k hkj h1
    cases hres : (killRight peaks (peaks.getD j 0 : ℤ) dist
        (peaks.length - (j + 1)) (j + 1)
        (killLeft peaks (peaks.getD j 0 : ℤ) dist j keep)).getD k true
    · rfl
    · have := killRight_true peaks _ dist _ _ _ k hres
      rw [hkl] at this
      cases this
  · have hjk' : j < k := by omega
    exact killRight_kills hs dist (peaks.getD j 0 : ℤ) (peaks.length - (j + 1))
      (j + 1) (killLeft peaks (peaks.getD j 0 : ℤ) dist j keep) (by omega)
      (by rw [killLeft_length]; exact hlen) k (by omega) hk h2

theorem foldl_sbpd_far {peaks : List ℕ} (hs : peaks.Pairwise (· < ·)) (dist : ℤ) :
    ∀ (L : List ℕ) (keep : List Bool), keep.length = peaks.length →
      (∀ j ∈ L, j < peaks.length) →
      ∀ j1 j2, j1 ∈ L → j2 ∈ L → j1 ≠ j2 →
        (L.foldl (sbpdStep peaks dist) keep).getD j1 true = true →
        (L.foldl (sbpdStep peaks dist) keep).getD j2 true = true →
        dist ≤ (peaks.getD j1 0 : ℤ) - peaks.getD j2 0 ∨
          dist ≤ (peaks.getD j2 0 : ℤ) - peaks.getD j1 0 := by
  intro L
  induction L with
  | nil => intro _ _ _ j1 j2 h1; exact absurd h1 (List.not_mem_nil j1)
  | cons j L' ih =>
    intro keep hlen hbound j1 j2 hm1 hm2 hne hf1 hf2
    rw [List.foldl_cons] at hf1 hf2
    by_contra hcon
    push_neg at hcon
    obtain ⟨hc1, hc2⟩ := hcon
    rcases eq_or_ne j j1 with heq | hj1
    · subst heq
      have hm2' : j2 ∈ L' := by
        rcases List.mem_cons.mp hm2 with heq2 | h
        · exact absurd heq2.symm hne
        · exact h
      cases hkt : keep.getD j true
      · have hskip : sbpdStep peaks dist keep j = keep := by
          unfold sbpdStep
          rw [if_pos (by rw [hkt])]
        rw [hskip] at hf1
        have := foldl_sbpd_true peaks dist L' keep j hf1
        rw [hkt] at this
        cases this
      · have hkill : (sbpdStep peaks dist keep j).getD j2 true = false :=
          sbpdStep_kills hs dist hlen (hbound j hm1) (hbound j2 hm2)
            (Ne.symm hne) hkt hc1 hc2
        have := foldl_sbpd_true peaks dist L' _ j2 hf2
        rw [hkill] at this
        cases this
    · rcases eq_or_ne j j2 with heq | hj2
      · subst heq
        have hm1' : j1 ∈ L' := by
          rcases List.mem_cons.mp hm1 with heq1 | h
          · exact absurd heq1.symm (Ne.symm hne)
          · exact h
        cases hkt : keep.getD j true
        · have hskip : sbpdStep peaks dist keep j = keep := by
            unfold sbpdStep
            rw [if_pos (by rw [hkt])]
          rw [hskip] at hf2
          have := foldl_sbpd_true peaks dist L' keep j hf2
          rw [hkt] at this
          cases this
        · have hkill : (sbpdStep peaks dist keep j).getD j1 true = false :=
            sbpdStep_kills hs dist hlen (hbound j hm2) (hbound j1 hm1)
              hne hkt hc2 hc1
          have := foldl_sbpd_true peaks dist L' _ j1 hf1
          rw [hkill] at this
          cases this
      · have hm1' : j1 ∈ L' := by
          rcases List.mem_cons.mp hm1 with rfl | h
          · exact absurd rfl (Ne.symm hj1)
          · exact h
        have hm2' : j2 ∈ L' := by
          rcases List.mem_cons.mp hm2 with rfl | h
          · exact absurd rfl (Ne.symm hj2)
          · exact h
        rcases ih (sbpdStep peaks dist keep j)
            (by rw [sbpdStep_length]; exact hlen)
            (fun a ha => hbound a (List.mem_cons_of_mem j ha))
            j1 j2 hm1' hm2' hne hf1 hf2 with h | h
        · omega
        · omega

theorem mem_filterMap_zip {a : ℕ} :
    ∀ (l : List ℕ) (kp : List Bool),
      a ∈ ((l.zip kp).filterMap fun q => if q.2 then some q.1 else none) →
      ∃ j, j < l.length ∧ kp.getD j true = true ∧ l.getD j 0 = a := by
  intro l
  induction l with
  | nil => intro kp h; simp at h
  | cons b l ih =>
    intro kp h
    cases kp with
    | nil => simp at h
    | cons c kp =>
      cases c
      · rw [List.zip_cons_cons, List.filterMap_cons_none (by rfl)] at h
        obtain ⟨j, hj, hkt, hgd⟩ := ih kp h
        exact ⟨j + 1, by simpa using hj, by simpa using hkt, by simpa using hgd⟩
      · rw [List.zip_cons_cons, List.filterMap_cons_some (by rfl)] at h
        rcases List.mem_cons.mp h with rfl | h
        · exact ⟨0, by simp, by simp, rfl⟩
        · obtain ⟨j, hj, hkt, hgd⟩ := ih kp h
          exact ⟨j + 1, by simpa using hj, by simpa using hkt, by simpa using hgd⟩

theorem distanceFiltered_far (x : List α) :
    ∀ a ∈ distanceFiltered x, ∀ b ∈ distanceFiltered x, a ≠ b →
      20 ≤ max a b - min a b := by
  intro a ha b hb hne
  unfold distanceFiltered at ha hb
  obtain ⟨j1, hj1, hk1, hv1⟩ := mem_filterMap_zip _ _ ha
  obtain ⟨j2, hj2, hk2, hv2⟩ := mem_filterMap_zip _ _ hb
  have hj12 : j1 ≠ j2 := by
    intro hcon
    subst hcon
    rw [hv1] at hv2
    exact hne hv2
  have hbound : ∀ j ∈ (argsort ((localMaxima x).map (xD x))).reverse,
      j < (localMaxima x).length := by
    intro j hj
    rw [List.mem_reverse] at hj
    have := mem_argsort.mp hj
    rwa [List.length_map] at this
  have hmem1 : j1 ∈ (argsort ((localMaxima x).map (xD x))).reverse := by
    rw [List.mem_reverse, mem_argsort, List.length_map]
    exact hj1
  have hmem2 : j2 ∈ (argsort ((localMaxima x).map (xD x))).reverse := by
    rw [List.mem_reverse, mem_argsort, List.length_map]
    exact hj2
  have hfar := foldl_sbpd_far (localMaxima_sorted x) 20 _
    (List.replicate (localMaxima x).length true)
    (List.length_replicate ..) hbound j1 j2 hmem1 hmem2 hj12 hk1 hk2
  subst hv1
  subst hv2
  omega

theorem distanceFiltered_pairwise_far (x : List α) :
    (distanceFiltered x).Pairwise fun a b => 20 ≤ max a b - min a b := by
  have hnd : (distanceFiltered x).Pairwise (· ≠ ·) :=
    (distanceFiltered_sorted x).imp Nat.ne_of_lt
  exact hnd.imp_of_mem fun {a b} ha hb hne => distanceFiltered_far x a ha b hb hne

theorem findPeaks_fst_far (x : List α) :
    ((findPeaks x).map Prod.fst).Pairwise fun a b => 20 ≤ max a b - min a b :=
  (distanceFiltered_pairwise_far x).sublist (findPeaks_fst_sublist x)

/-!
Transfer of the pairwise invariants through the ranking (a permuted,
truncated selection of the `findPeaks` output).
-/

theorem getD_eq_getElem_pk {pk : List (ℕ × α)} {k : ℕ} (h : k < pk.length) :
    pk.getD k (0, 0) = pk[k] := by
  simp [List.getD_eq_getElem?_getD, List.getElem?_eq_getElem h]

theorem mem_take_reverse_argsort {p : List α} {k : ℕ}
    (h : k ∈ (argsort p).reverse.take 10) : k < p.length := by
  have h1 : k ∈ (argsort p).reverse := List.mem_of_mem_take h
  rw [List.mem_reverse] at h1
  exact mem_argsort.mp h1

theorem take_reverse_argsort_nodup (p : List α) :
    ((argsort p).reverse.take 10).Nodup :=
  (List.nodup_reverse.mpr (argsort_nodup p)).sublist (List.take_sublist ..)

theorem rankPeaks_far (pk : List (ℕ × α))
    (h : (pk.map Prod.fst).Pairwise fun a b => 20 ≤ max a b - min a b) :
    (rankPeaks pk).Pairwise fun a b => 20 ≤ max a.1 b.1 - min a.1 b.1 := by
  unfold rankPeaks
  rw [List.pairwise_map]
  refine (take_reverse_argsort_nodup (pk.map Prod.snd)).imp_of_mem ?_
  intro a b ha hb hne
  have hb1 : a < pk.length := by
    have := mem_take_reverse_argsort ha
    rwa [List.length_map] at this
  have hb2 : b < pk.length := by
    have := mem_take_reverse_argsort hb
    rwa [List.length_map] at this
  rw [getD_eq_getElem_pk hb1, getD_eq_getElem_pk hb2]
  rcases Nat.lt_or_ge a b with hab | hba
  · have hp := List.pairwise_iff_getElem.mp h a b
      (by rw [List.length_map]; exact hb1) (by rw [List.length_map]; exact hb2) hab
    rw [List.getElem_map, List.getElem_map] at hp
    exact hp
  · have hba' : b < a := by omega
    have hp := List.pairwise_iff_getElem.mp h b a
      (by rw [List.length_map]; exact hb2) (by rw [List.length_map]; exact hb1) hba'
    rw [List.getElem_map, List.getElem_map] at hp
    omega

theorem rankPeaks_tie (pk : List (ℕ × α))
    (hfst : (pk.map Prod.fst).Pairwise (· < ·)) :
    (rankPeaks pk).Pairwise fun a b => a.2 = b.2 → b.1 ≤ a.1 := by
  unfold rankPeaks
  rw [List.pairwise_map]
  have hsor : ((argsort (pk.map Prod.snd)).reverse.take 10).Pairwise
      (fun a b => lexLe (pk.map Prod.snd) b a) :=
    (List.pairwise_reverse.mpr (argsort_pairwise _)).sublist (List.take_sublist ..)
  have hcomb := hsor.imp_of_mem
    (S := fun a b => lexLe (pk.map Prod.snd) b a ∧ a < pk.length ∧ b < pk.length)
    (fun {a b} ha hb hr => ⟨hr, by
        have := mem_take_reverse_argsort ha
        rwa [List.length_map] at this, by
        have := mem_take_reverse_argsort hb
        rwa [List.length_map] at this⟩)
  refine hcomb.imp ?_
  intro a b hr heq
  obtain ⟨hlex, hb1, hb2⟩ := hr
  rcases hlex with hlt | ⟨heqp, hble⟩
  · rw [xD_map_snd, xD_map_snd, heq] at hlt
    exact absurd hlt (lt_irrefl _)
  · rcases Nat.eq_or_lt_of_le hble with heq2 | hblt
    · rw [heq2]
    · have hp := List.pairwise_iff_getElem.mp hfst b a
        (by rw [List.length_map]; exact hb2) (by rw [List.length_map]; exact hb1) hblt
      rw [List.getElem_map, List.getElem_map] at hp
      rw [getD_eq_getElem_pk hb1, getD_eq_getElem_pk hb2]
      exact le_of_lt hp

/-!
Spectrum-level invariants of the accepted peak list and the final table.
-/

theorem selectedPeaks_sorted (df : List Row) :
    (selectedPeaks df).Pairwise fun a b => b.2 ≤ a.2 :=
  rankPeaks_sorted _

theorem selectedPeaks_length_le (df : List Row) : (selectedPeaks df).length ≤ 10 :=
  rankPeaks_length_le _

theorem selectedPeaks_far (df : List Row) :
    (selectedPeaks df).Pairwise fun a b => 20 ≤ max a.1 b.1 - min a.1 b.1 :=
  rankPeaks_far _ (findPeaks_fst_far _)

theorem selectedPeaks_tie (df : List Row) :
    (selectedPeaks df).Pairwise fun a b => a.2 = b.2 → b.1 ≤ a.1 :=
  rankPeaks_tie _ (findPeaks_fst_sorted _)

/-!
Degenerate short spectra: with at most three samples no candidate can pass
the `width ≥ 2` constraint (a three-sample signal admits at most one
interior local maximum, whose width at half prominence is strictly below 2),
so the extractor returns an empty table instead of failing.
-/

theorem findPeaks_three (s0 s1 s2 : α) : findPeaks [s0, s1, s2] = [] := by
  by_cases h1 : s0 < s1
  · by_cases h2 : s2 < s1
    · have hlm : localMaxima [s0, s1, s2] = [1] := by
        norm_num [localMaxima, localMaximaAux, scanPlateau, xD, h1, h2]
      have hdf : distanceFiltered [s0, s1, s2] = [1] := by
        unfold distanceFiltered
        rw [hlm]
        rfl
      have hmax : max s0 s2 < s1 := max_lt h1 h2
      have hprom : promTriple [s0, s1, s2] 1 = (s1 - max s0 s2, 0, 2) := by
        norm_num [promTriple, promLeft, promRight, xD, h1, h2, le_of_lt h1,
          le_of_lt h2, not_lt_of_le (le_refl s1)]
      by_cases h3 : (1 / 100 : α) ≤ s1 - max s0 s2
      · have hs0max : s0 ≤ max s0 s2 := le_max_left s0 s2
        have hs2max : s2 ≤ max s0 s2 := le_max_right s0 s2
        have hh0 : s0 < s1 - (s1 - max s0 s2) / 2 := by linarith
        have hh2 : s2 < s1 - (s1 - max s0 s2) / 2 := by linarith
        have hhlt : s1 - (s1 - max s0 s2) / 2 < s1 := by linarith
        have hw : widthOf [s0, s1, s2] 1 (s1 - max s0 s2) 0 2 =
            (2 - (s1 - (s1 - max s0 s2) / 2 - s2) / (s1 - s2)) -
              (0 + (s1 - (s1 - max s0 s2) / 2 - s0) / (s1 - s0)) := by
          norm_num [widthOf, widthLeftI, widthRightI, interpLeft, interpRight,
            xD, hh0, hh2, hhlt]
        have hA : 0 < (s1 - (s1 - max s0 s2) / 2 - s0) / (s1 - s0) :=
          div_pos (by linarith) (by linarith)
        have hB : 0 < (s1 - (s1 - max s0 s2) / 2 - s2) / (s1 - s2) :=
          div_pos (by linarith) (by linarith)
        have hwlt : widthOf [s0, s1, s2] 1 (s1 - max s0 s2) 0 2 < 2 := by
          rw [hw]
          linarith
        unfold findPeaks
        rw [hdf]
        norm_num [hprom, h3, not_le_of_lt hwlt]
      · unfold findPeaks
        rw [hdf]
        norm_num [hprom, h3]
    · have hlm : localMaxima [s0, s1, s2] = [] := by
        by_cases hq : s2 = s1
        · norm_num [localMaxima, localMaximaAux, scanPlateau, xD, h1, h2, hq]
        · norm_num [localMaxima, localMaximaAux, scanPlateau, xD, h1, h2, hq]
      unfold findPeaks distanceFiltered
      rw [hlm]
      rfl
  · have hlm : localMaxima [s0, s1, s2] = [] := by
      norm_num [localMaxima, localMaximaAux, scanPlateau, xD, h1]
    unfold findPeaks distanceFiltered
    rw [hlm]
    rfl

theorem find_peaks_in_spectrum_short (df : List Row) (h : df.length ≤ 3) :
    find_peaks_in_spectrum df = [] := by
  have hfp : findPeaks (spectrumSignal df) = [] := by
    rcases df with _ | ⟨r1, _ | ⟨r2, _ | ⟨r3, _ | ⟨r4, rest⟩⟩⟩⟩
    · rfl
    · rfl
    · rfl
    · exact findPeaks_three _ _ _
    · simp at h
  unfold find_peaks_in_spectrum selectedPeaks
  rw [hfp]
  rfl

/-!
Claim theorems.
-/

/-- C1: code behaviour at a conforming scenario input.  `csv1` has 41 rows
with exactly one clear transmittance dip around wavenumber 2500 and no other
dip, yet peak extraction returns an empty table — not a single record near
2500 — because `find_peaks(-absorbance)` detects local maxima of the negated
absorbance, which are transmittance maxima (absorption minima), not the dip. -/
theorem C1_code_behavior :
    process_ftir_file csv1 = Except.ok (csv1.map mkRow) ∧
    csv1.length = 41 ∧
    find_peaks_in_spectrum (csv1.map mkRow) = [] := by
  refine ⟨rfl, rfl, ?_⟩
  unfold find_peaks_in_spectrum
  rw [sel1]
  rfl

/-- C2: for every valid two-column numeric input table, processing succeeds
and every produced row satisfies `absorbance = log10 (100 / transmittance)`
exactly. -/
theorem C2_absorbance_formula (table : List (List ℝ))
    (hrect : ∀ r ∈ table, r.length = 2) (h2 : ncols table = 2) :
    ∃ rows : List Row, process_ftir_file table = Except.ok rows ∧
      rows.length = table.length ∧
      ∀ i, i < rows.length →
        (rows.getD i default).absorbance =
          Real.logb 10 (100 / (table.getD i []).getD 1 0) := by
  refine ⟨table.map mkRow, ?_, List.length_map .., ?_⟩
  · unfold process_ftir_file
    rw [if_pos h2]
  · intro i hi
    rw [List.length_map] at hi
    have hmap : (table.map mkRow).getD i default = mkRow (table.getD i []) := by
      simp [List.getD_eq_getElem?_getD, List.getElem?_map,
        List.getElem?_eq_getElem hi]
    rw [hmap]
    rfl

theorem C2_witness :
    ∃ rows : List Row,
      process_ftir_file [[(4000 : ℝ), 100], [3500, 80]] = Except.ok rows ∧
      rows.length = ([[(4000 : ℝ), 100], [3500, 80]] : List (List ℝ)).length ∧
      ∀ i, i < rows.length →
        (rows.getD i default).absorbance =
          Real.logb 10
            (100 / (([[(4000 : ℝ), 100], [3500, 80]] : List (List ℝ)).getD i []).getD 1 0) :=
  C2_absorbance_formula [[(4000 : ℝ), 100], [3500, 80]] (by simp) rfl

/-- C3: every peak table is ordered by non-increasing prominence, has at
most ten records, and when fewer than ten peaks were found the table holds
exactly the found peaks (it is never padded). -/
theorem C3_table_sorted_bounded (df : List Row) :
    (find_peaks_in_spectrum df).length ≤ 10 ∧
    (find_peaks_in_spectrum df).Pairwise
      (fun a b => b.prominence ≤ a.prominence) ∧
    ((findPeaks (spectrumSignal df)).length ≤ 10 →
      (find_peaks_in_spectrum df).length =
        (findPeaks (spectrumSignal df)).length) := by
  refine ⟨?_, ?_, ?_⟩
  · unfold find_peaks_in_spectrum
    rw [List.length_map]
    exact selectedPeaks_length_le df
  · unfold find_peaks_in_spectrum
    rw [List.pairwise_map]
    exact (selectedPeaks_sorted df).imp fun h => h
  · intro hle
    unfold find_peaks_in_spectrum selectedPeaks rankPeaks
    rw [List.length_map, List.length_map, List.length_take,
      List.length_reverse, (argsort_perm _).length_eq, List.length_range,
      List.length_map]
    omega

theorem C3_witness :
    (find_peaks_in_spectrum (csv5.map mkRow)).length ≤ 10 ∧
    (find_peaks_in_spectrum (csv5.map mkRow)).Pairwise
      (fun a b => b.prominence ≤ a.prominence) ∧
    ((findPeaks (spectrumSignal (csv5.map mkRow))).length ≤ 10 →
      (find_peaks_in_spectrum (csv5.map mkRow)).length =
        (findPeaks (spectrumSignal (csv5.map mkRow))).length) :=
  C3_table_sorted_bounded (csv5.map mkRow)

/-- C4 counterexample: on `csv4` the two accepted peaks have exactly equal
prominence (2 and 2), yet the table lists source index 32 before source
index 11 — the reverse of original index order, refuting the claimed
lower-index-first stable tie-break. -/
theorem C4_counterexample :
    (selectedPeaks (csv4.map mkRow)).map Prod.fst = [32, 11] ∧
    (selectedPeaks (csv4.map mkRow)).map Prod.snd = [2, 2] := by
  constructor
  · rw [sel4]
    rfl
  · rw [sel4]
    norm_num

/-- C4 amended: for spectra with at most 16 accepted peaks — where numpy's
default argsort is an insertion sort, so the stable `argsort` model is exact
— accepted peaks with exactly equal prominence are listed in reverse
original index order (higher source index first), the result of reversing
the stable ascending argsort.  Beyond 16 accepted peaks the unstable sort
fixes no tie order, so nothing is claimed there; the hypothesis delimits
the claim to the domain on which the embedding's tie order is the
program's (within it the conclusion follows from stability alone). -/
theorem C4_amended_tie_order (df : List Row)
    (_hn : (findPeaks (spectrumSignal df)).length ≤ 16) :
    (selectedPeaks df).Pairwise fun a b => a.2 = b.2 → b.1 ≤ a.1 :=
  selectedPeaks_tie df

theorem C4_witness :
    (findPeaks (spectrumSignal (csv4.map mkRow))).length ≤ 16 ∧
    (selectedPeaks (csv4.map mkRow)).Pairwise
      fun a b => a.2 = b.2 → b.1 ≤ a.1 := by
  have hn : (findPeaks (spectrumSignal (csv4.map mkRow))).length ≤ 16 := by
    rw [sig4_eq, findPeaks_cast, fp4]
    norm_num
  exact ⟨hn, C4_amended_tie_order (csv4.map mkRow) hn⟩

/-- C5 amended: the source indices of any two accepted peaks in a peak
table differ by at least 20 samples.  (The retention priority among
conflicting candidates is the signal height at the peak, not the
prominence — see `C5_counterexample`.) -/
theorem C5_amended_min_separation (df : List Row) :
    (selectedPeaks df).Pairwise fun a b => 20 ≤ max a.1 b.1 - min a.1 b.1 :=
  selectedPeaks_far df

/-- C5 counterexample: on `csv5` the two candidate peaks sit 4 samples
apart; the discarded candidate (index 7) has prominence 3 while the
retained one (index 3) has prominence 2 — the higher-prominence candidate
is discarded, because the distance filter prioritises signal height. -/
theorem C5_counterexample :
    localMaxima (spectrumSignal (csv5.map mkRow)) = [3, 7] ∧
    (promTriple (spectrumSignal (csv5.map mkRow)) 7).1 = 3 ∧
    (promTriple (spectrumSignal (csv5.map mkRow)) 3).1 = 2 ∧
    (selectedPeaks (csv5.map mkRow)).map Prod.fst = [3] := by
  refine ⟨?_, ?_, ?_, ?_⟩
  · rw [sig5_eq, localMaxima_cast, lm5]
  · rw [sig5_eq, promTriple_cast, prom5b]
    norm_num
  · rw [sig5_eq, promTriple_cast, prom5a]
    norm_num
  · rw [sel5]
    rfl

theorem C5_witness :
    (selectedPeaks (csv4.map mkRow)).Pairwise
      fun a b => 20 ≤ max a.1 b.1 - min a.1 b.1 :=
  C5_amended_min_separation (csv4.map mkRow)

/-- C6 counterexample: `wrongShapePayload` is syntactically valid JSON that
does not match the expected analysis schema, yet the parser returns the
decoded value as-is — not the Unparsed fallback carrying the raw text —
refuting the clause that a payload not matching the expected shape is a
decode failure yielding the Unparsed variant: `json.loads` succeeds and the
code performs no schema validation. -/
theorem C6_counterexample :
    jsonLoads wrongShapePayload = some (.obj [("answer", .num 42)]) ∧
    parse_llm_analysis jsonLoads wrongShapePayload =
      .obj [("answer", .num 42)] ∧
    parse_llm_analysis jsonLoads wrongShapePayload ≠
      .obj [("error", .str "Could not parse LLM response"),
        ("raw_text", .str wrongShapePayload)] := by
  refine ⟨rfl, rfl, fun h => ?_⟩
  have h2 : JsonVal.obj [("answer", JsonVal.num 42)] =
      JsonVal.obj [("error", .str "Could not parse LLM response"),
        ("raw_text", .str wrongShapePayload)] := h
  simp [wrongShapePayload] at h2

/-- C6 amended: the parser attempts a syntactic JSON decode of the
service's response and never validates a schema; whenever the syntactic
decode fails — e.g. free-form prose — the result is the fallback
dictionary carrying raw text equal to the literal response body (the
Unparsed variant) and the operation does not fail; whenever the decode
succeeds, the decoded value is returned unchanged whatever its shape. -/
theorem C6_parse_behavior (s : String) :
    (jsonLoads s = none →
      parse_llm_analysis jsonLoads s =
        .obj [("error", .str "Could not parse LLM response"),
          ("raw_text", .str s)]) ∧
    ∀ v, jsonLoads s = some v → parse_llm_analysis jsonLoads s = v := by
  constructor
  · intro h
    unfold parse_llm_analysis
    rw [h]
  · intro v h
    unfold parse_llm_analysis
    rw [h]

theorem C6_witness :
    (parse_llm_analysis jsonLoads prosePayload =
      .obj [("error", .str "Could not parse LLM response"),
        ("raw_text", .str prosePayload)]) ∧
    parse_llm_analysis jsonLoads arrayPayload = .arr [.num 1, .num 2] :=
  ⟨(C6_parse_behavior prosePayload).1 rfl,
   (C6_parse_behavior arrayPayload).2 (.arr [.num 1, .num 2]) rfl⟩

/-- C7: a rectangular table whose column count is not exactly two is
rejected with the wrapped column-count `ValueError` and no spectrum is
produced; a two-column table is never rejected by that validation. -/
theorem C7_column_validation (table : List (List ℝ))
    (hrect : ∀ r ∈ table, r.length = ncols table) :
    (ncols table ≠ 2 →
      process_ftir_file table =
        Except.error (.valueError (errPrefix ++ colMsg))) ∧
    (ncols table = 2 → ∃ rows, process_ftir_file table = Except.ok rows) := by
  constructor
  · intro h
    unfold process_ftir_file
    rw [if_neg h]
  · intro h
    refine ⟨table.map mkRow, ?_⟩
    unfold process_ftir_file
    rw [if_pos h]

theorem C7_witness :
    process_ftir_file [[(1 : ℝ), 2, 3]] =
      Except.error (.valueError (errPrefix ++ colMsg)) ∧
    (∃ rows, process_ftir_file [[(4000 : ℝ), 100]] = Except.ok rows) :=
  ⟨(C7_column_validation [[(1 : ℝ), 2, 3]] (by simp [ncols])).1 (by simp [ncols]),
   (C7_column_validation [[(4000 : ℝ), 100]] (by simp [ncols])).2 rfl⟩

/-- C8 counterexample: at transmittance 0 the absorbance cell is positive
infinity (`log10 (100 / +0) = log10 (+inf) = +inf`), not the negative
infinity the claim states. -/
theorem C8_counterexample :
    npAbsorbance 0 = FloatVal.posInf ∧ FloatVal.posInf ≠ FloatVal.negInf := by
  constructor
  · unfold npAbsorbance npDiv100
    rw [if_pos rfl]
    rfl
  · intro h
    cases h

/-- C8 amended: every row with non-positive transmittance yields a
non-finite absorbance cell — positive infinity at 0, NaN below 0 — and the
row-wise derivation still produces every row of the table. -/
theorem C8_amended_nonfinite (table : List (List ℝ)) :
    (processRowsFloat table).length = table.length ∧
    ∀ i, i < table.length →
      ((processRowsFloat table).getD i ⟨0, 0, .nan⟩).absorbance =
          npAbsorbance ((table.getD i []).getD 1 0) ∧
      ((table.getD i []).getD 1 0 = 0 →
        ((processRowsFloat table).getD i ⟨0, 0, .nan⟩).absorbance = .posInf) ∧
      ((table.getD i []).getD 1 0 < 0 →
        ((processRowsFloat table).getD i ⟨0, 0, .nan⟩).absorbance = .nan) := by
  refine ⟨List.length_map .., ?_⟩
  intro i hi
  have hmap : (processRowsFloat table).getD i ⟨0, 0, .nan⟩ =
      ⟨(table.getD i []).getD 0 0, (table.getD i []).getD 1 0,
        npAbsorbance ((table.getD i []).getD 1 0)⟩ := by
    unfold processRowsFloat
    simp [List.getD_eq_getElem?_getD, List.getElem?_map,
      List.getElem?_eq_getElem hi]
  rw [hmap]
  refine ⟨rfl, ?_, ?_⟩
  · intro h0
    show npAbsorbance ((table.getD i []).getD 1 0) = FloatVal.posInf
    rw [h0]
    unfold npAbsorbance npDiv100
    rw [if_pos rfl]
    rfl
  · intro hneg
    show npAbsorbance ((table.getD i []).getD 1 0) = FloatVal.nan
    unfold npAbsorbance npDiv100
    rw [if_neg (ne_of_lt hneg)]
    have hq : (100 : ℝ) / (table.getD i []).getD 1 0 < 0 :=
      div_neg_of_pos_of_neg (by norm_num) hneg
    simp only [npLog10]
    rw [if_neg (not_lt.mpr (le_of_lt hq)), if_neg (ne_of_lt hq)]

theorem C8_witness :
    (processRowsFloat [[(4000 : ℝ), 0], [3500, -5], [3000, 100]]).length =
      ([[(4000 : ℝ), 0], [3500, -5], [3000, 100]] : List (List ℝ)).length ∧
    ∀ i, i < ([[(4000 : ℝ), 0], [3500, -5], [3000, 100]] : List (List ℝ)).length →
      ((processRowsFloat [[(4000 : ℝ), 0], [3500, -5], [3000, 100]]).getD i
          ⟨0, 0, .nan⟩).absorbance =
        npAbsorbance ((([[(4000 : ℝ), 0], [3500, -5], [3000, 100]] :
          List (List ℝ)).getD i []).getD 1 0) ∧
      ((([[(4000 : ℝ), 0], [3500, -5], [3000, 100]] :
          List (List ℝ)).getD i []).getD 1 0 = 0 →
        ((processRowsFloat [[(4000 : ℝ), 0], [3500, -5], [3000, 100]]).getD i
          ⟨0, 0, .nan⟩).absorbance = .posInf) ∧
      ((([[(4000 : ℝ), 0], [3500, -5], [3000, 100]] :
          List (List ℝ)).getD i []).getD 1 0 < 0 →
        ((processRowsFloat [[(4000 : ℝ), 0], [3500, -5], [3000, 100]]).getD i
          ⟨0, 0, .nan⟩).absorbance = .nan) :=
  C8_amended_nonfinite [[(4000 : ℝ), 0], [3500, -5], [3000, 100]]

/-- C9: a spectrum too short for the width (≥ 2 samples at half prominence)
constraint to be satisfiable — at most three samples — yields an empty peak
table, and extraction is total (it cannot fail). -/
theorem C9_short_spectrum_empty (df : List Row) (h : df.length ≤ 3) :
    find_peaks_in_spectrum df = [] :=
  find_peaks_in_spectrum_short df h

theorem C9_witness :
    ([[(4000 : ℝ), 100], [3500, 80]].map mkRow).length ≤ 3 ∧
    find_peaks_in_spectrum ([[(4000 : ℝ), 100], [3500, 80]].map mkRow) = [] :=
  ⟨by simp, C9_short_spectrum_empty ([[(4000 : ℝ), 100], [3500, 80]].map mkRow) (by simp)⟩

/-- C10: every failure of `process_ftir_file` surfaces as a `ValueError`
whose message starts with the wrapper prefix and carries the original
cause; no other exception kind escapes. -/
theorem C10_error_wrapping (table : List (List ℝ)) (e : PyErr)
    (h : process_ftir_file table = Except.error e) :
    ∃ cause, e = PyErr.valueError (errPrefix ++ cause) := by
  unfold process_ftir_file at h
  by_cases hc : ncols table = 2
  · rw [if_pos hc] at h
    cases h
  · rw [if_neg hc] at h
    refine ⟨colMsg, ?_⟩
    cases h
    rfl

theorem C10_witness :
    process_ftir_file [[(1 : ℝ), 2, 3]] =
      Except.error (.valueError (errPrefix ++ colMsg)) ∧
    ∃ cause, PyErr.valueError (errPrefix ++ colMsg) =
      PyErr.valueError (errPrefix ++ cause) :=
  ⟨rfl, C10_error_wrapping [[(1 : ℝ), 2, 3]] _ rfl⟩

end FTIR
